import Mathlib

/-!
Verification development for the UniswapV3 pool simulator
(`src/amm/uniswap_v3/mod.rs` of the `amms-rs` repository).

The Rust code is shallowly embedded:

* `u128` values are `Nat`, `i128`/`i32`/`i16` values are `Int`; arithmetic
  that can overflow in Rust is modelled with explicit two's-complement
  wrapping (release-mode Rust semantics), via the `wu`/`ws` helpers below.
* `U256` values are `Nat`, `I256` values are `Int` holding the signed value
  of the 256-bit two's-complement word.
* `HashMap` fields are modelled extensionally by `HMap`: a finite key set
  together with a value function.
* External fallible calls (`uniswap_v3_math`) are modelled as an abstract
  `MathKernel` record of functions returning `Except`; panics are modelled
  as distinguished error values.
-/

set_option maxRecDepth 100000
set_option maxHeartbeats 1000000

namespace AmmsRs

/-- Cast of an integer to `u128` two's-complement bits (Rust `as u128`). -/
def wu128 (n : Int) : Nat := (n % (2 ^ 128 : Nat)).toNat

/-- Signed wrap of an integer into the `i128` range (release-mode Rust
wrap-around arithmetic on `i128`). -/
def ws128 (n : Int) : Int := (n + 2 ^ 127) % 2 ^ 128 - 2 ^ 127

/-- Cast of an integer to `u256` two's-complement bits (`I256::into_raw`). -/
def wu256 (n : Int) : Nat := (n % (2 ^ 256 : Nat)).toNat

/-- Signed wrap of an integer into the `i256` range (wrapping `I256` ops). -/
def ws256 (n : Int) : Int := (n + 2 ^ 255) % 2 ^ 256 - 2 ^ 255

/-- Signed wrap of an integer into the `i32` range (`i32::wrapping_sub`). -/
def ws32 (n : Int) : Int := (n + 2 ^ 31) % 2 ^ 32 - 2 ^ 31

/-- Signed wrap of an integer into the `i16` range (`as i16`). -/
def ws16 (n : Int) : Int := (n + 2 ^ 15) % 2 ^ 16 - 2 ^ 15

/-- The Rust pattern `if d < 0 { x - ((-d) as u128) } else { x + (d as u128) }`
on a `u128` value `x` and an `i128` value `d`, with wrapping
(release-mode) semantics for the `u128` addition/subtraction. -/
def u128AddI128 (x : Nat) (d : Int) : Nat :=
  if d < 0 then (x + 2 ^ 128 - wu128 (-d)) % 2 ^ 128
  else (x + wu128 d) % 2 ^ 128

end AmmsRs

namespace AmmsRs

/-- Extensional model of a Rust `HashMap`: a finite key set together with a
value function (the value function is meaningful on the key set only). -/
structure HMap (α β : Type) [DecidableEq α] where
  keys : Finset α
  val : α → β

variable {α β : Type} [DecidableEq α]

/-- Lookup, `HashMap::get`. -/
def HMap.get? (m : HMap α β) (k : α) : Option β :=
  if k ∈ m.keys then some (m.val k) else none

/-- Lookup with a default for missing keys. -/
def HMap.getD (m : HMap α β) (k : α) (d : β) : β :=
  if k ∈ m.keys then m.val k else d

/-- Insertion, `HashMap::insert` (also models in-place mutation through a
`get_mut` reference). -/
def HMap.insert (m : HMap α β) (k : α) (v : β) : HMap α β :=
  ⟨Insert.insert k m.keys, Function.update m.val k v⟩

/-- Removal, `HashMap::remove`. -/
def HMap.remove (m : HMap α β) (k : α) : HMap α β :=
  ⟨m.keys.erase k, m.val⟩

end AmmsRs

namespace AmmsRs

/-! ### Constants from the source -/

/-- Constant MIN_SQRT_RATIO from the source. -/
def MIN_SQRT_RATIO : Nat := 4295128739

/-- Constant MAX_SQRT_RATIO from the source, given there as the `U256`
limb array `[6743328256752651558, 17280870778742802505, 4294805859, 0]`. -/
def MAX_SQRT_RATIO : Nat :=
  6743328256752651558 + 17280870778742802505 * 2 ^ 64 + 4294805859 * 2 ^ 128

/-- Constant `MIN_TICK` from the source. -/
def MIN_TICK : Int := -887272

/-- Constant `MAX_TICK` from the source. -/
def MAX_TICK : Int := 887272

/-! ### Pool state -/

/-- The `Info` struct: per-tick liquidity bookkeeping. -/
structure Info where
  liquidity_gross : Nat
  liquidity_net : Int
  initialized : Bool
deriving DecidableEq, Repr

/-- The `Info::default()` value (all fields zero / false). -/
def Info.zero : Info := ⟨0, 0, false⟩

/-- The `UniswapV3Pool` struct. Addresses (`H160`) are modelled as `Nat`. -/
structure UniswapV3Pool where
  address : Nat
  token_a : Nat
  token_a_decimals : Nat
  token_b : Nat
  token_b_decimals : Nat
  liquidity : Nat
  sqrt_price : Nat
  fee : Nat
  tick : Int
  tick_spacing : Int
  tick_bitmap : HMap Int Nat
  ticks : HMap Int Info

/-! ### Tick bitmap position and mutators -/

/-- Modelled from the spec: the external
`uniswap_v3_math::tick_bitmap::position` helper, which is not part of this
crate.  Per the spec: `word = tick >> 8` (arithmetic shift, result cast to
`i16`), `bit = tick & 0xFF`. -/
def position (tick : Int) : Int × Nat :=
  (ws16 (tick.fdiv 256), (tick.emod 256).toNat)

/-- The method `UniswapV3Pool::flip_tick`: toggle bit
`position(tick / tick_spacing)` in `tick_bitmap`, inserting the word if
absent.  The Rust `/` on `i32` is truncating division (`Int.tdiv`). -/
def flip_tick (p : UniswapV3Pool) (tick : Int) (tick_spacing : Int) :
    UniswapV3Pool :=
  let wb := position (tick.tdiv tick_spacing)
  let mask : Nat := 1 <<< wb.2
  match p.tick_bitmap.get? wb.1 with
  | some word => { p with tick_bitmap := p.tick_bitmap.insert wb.1 (word ^^^ mask) }
  | none => { p with tick_bitmap := p.tick_bitmap.insert wb.1 mask }

/-- The method `UniswapV3Pool::update_tick`.  The Rust code first inserts a
default `Info` when the tick is absent and then mutates the entry in place;
the net effect is a single insertion of the updated entry.  The `u128` and
`i128` arithmetic wraps (release-mode semantics). -/
def update_tick (p : UniswapV3Pool) (tick : Int) (liquidity_delta : Int)
    (upper : Bool) : Bool × UniswapV3Pool :=
  let info := match p.ticks.get? tick with
    | some info => info
    | none => Info.zero
  let liquidity_gross_before := info.liquidity_gross
  let liquidity_gross_after := u128AddI128 liquidity_gross_before liquidity_delta
  let flipped := (liquidity_gross_after == 0) != (liquidity_gross_before == 0)
  let info := if liquidity_gross_before = 0 then { info with initialized := true } else info
  let info := { info with liquidity_gross := liquidity_gross_after }
  let info :=
    { info with liquidity_net :=
        if upper then ws128 (info.liquidity_net - liquidity_delta)
        else ws128 (info.liquidity_net + liquidity_delta) }
  (flipped, { p with ticks := p.ticks.insert tick info })

/-- The method `UniswapV3Pool::update_position`. -/
def update_position (p : UniswapV3Pool) (tick_lower tick_upper : Int)
    (liquidity_delta : Int) : UniswapV3Pool :=
  let r :=
    if liquidity_delta ≠ 0 then
      let rl := update_tick p tick_lower liquidity_delta false
      let ru := update_tick rl.2 tick_upper liquidity_delta true
      let p := ru.2
      let p := if rl.1 then flip_tick p tick_lower p.tick_spacing else p
      let p := if ru.1 then flip_tick p tick_upper p.tick_spacing else p
      (rl.1, ru.1, p)
    else (false, false, p)
  if liquidity_delta < 0 then
    let p := if r.1 then { r.2.2 with ticks := r.2.2.ticks.remove tick_lower } else r.2.2
    if r.2.1 then { p with ticks := p.ticks.remove tick_upper } else p
  else r.2.2

/-- The method `UniswapV3Pool::modify_position`. -/
def modify_position (p : UniswapV3Pool) (tick_lower tick_upper : Int)
    (liquidity_delta : Int) : UniswapV3Pool :=
  let p := update_position p tick_lower tick_upper liquidity_delta
  if liquidity_delta ≠ 0 then
    if tick_lower < p.tick ∧ p.tick < tick_upper then
      { p with liquidity := u128AddI128 p.liquidity liquidity_delta }
    else p
  else p

/-! ### Mint / burn event replay

A mint log is applied as `modify_position(lower, upper, amount as i128)`
(`sync_from_mint_log`) and a burn log as
`modify_position(lower, upper, -(amount as i128))` (`sync_from_burn_log`);
the casts and the negation wrap. -/

/-- A decoded mint or burn event: tick range plus `u128` amount. -/
inductive Event
  | mint (lower upper : Int) (amount : Nat)
  | burn (lower upper : Int) (amount : Nat)
deriving DecidableEq, Repr

/-- Lower tick of an event. -/
def Event.lo : Event → Int
  | .mint l _ _ => l
  | .burn l _ _ => l

/-- Upper tick of an event. -/
def Event.hi : Event → Int
  | .mint _ u _ => u
  | .burn _ u _ => u

/-- The `liquidity_delta` passed to `modify_position` for an event:
`amount as i128` for a mint, `-(amount as i128)` for a burn, with Rust
two's-complement cast and wrapping negation. -/
def Event.delta : Event → Int
  | .mint _ _ a => ws128 (a : Int)
  | .burn _ _ a => ws128 (-(ws128 (a : Int)))

/-- The mathematical (unwrapped) signed amount of an event. -/
def Event.signedAmount : Event → Int
  | .mint _ _ a => (a : Int)
  | .burn _ _ a => -(a : Int)

/-- Apply one decoded event to the pool, as `sync_from_mint_log` /
`sync_from_burn_log` do. -/
def applyEvent (p : UniswapV3Pool) (e : Event) : UniswapV3Pool :=
  modify_position p e.lo e.hi e.delta

/-- Apply a sequence of decoded events in order. -/
def runEvents (p : UniswapV3Pool) (es : List Event) : UniswapV3Pool :=
  es.foldl applyEvent p

/-! ### Specification-side bookkeeping for event sequences

These definitions are exact-arithmetic ghost state used to phrase the
liquidity invariants; they are not part of the embedded program. -/

/-- Signed amount an event contributes to the position `(l, u)`. -/
def pairDelta (e : Event) (l u : Int) : Int :=
  if e.lo = l ∧ e.hi = u then e.signedAmount else 0

/-- Net liquidity minted so far on the position `(l, u)`. -/
def minted (es : List Event) (l u : Int) : Int :=
  (es.map (fun e => pairDelta e l u)).sum

/-- Sum, over events with lower tick `t`, of the signed amounts. -/
def lowerAcc (es : List Event) (t : Int) : Int :=
  (es.map (fun e => if e.lo = t then e.signedAmount else 0)).sum

/-- Sum, over events with upper tick `t`, of the signed amounts. -/
def upperAcc (es : List Event) (t : Int) : Int :=
  (es.map (fun e => if e.hi = t then e.signedAmount else 0)).sum

/-- Ghost value of `liquidity_gross` at tick `t` after `es`. -/
def grossSpec (es : List Event) (t : Int) : Int := lowerAcc es t + upperAcc es t

/-- Ghost value of `liquidity_net` at tick `t` after `es`. -/
def netSpec (es : List Event) (t : Int) : Int := lowerAcc es t - upperAcc es t

/-- Total `u128` liquidity minted by the mint events of the sequence. -/
def totalMinted : List Event → Nat
  | [] => 0
  | .mint _ _ a :: es => a + totalMinted es
  | .burn _ _ _ :: es => totalMinted es

/-- One event is admissible after the prefix `done`: a burn may not remove
more liquidity from a position than was minted on it. -/
def stepOK (done : List Event) : Event → Bool
  | .mint _ _ _ => true
  | .burn l u a => decide ((a : Int) ≤ minted done l u)

/-- Auxiliary recursion for `Valid`. -/
def validAux (done : List Event) : List Event → Bool
  | [] => true
  | e :: rest => stepOK done e && validAux (done ++ [e]) rest

/-- A sequence of events is valid when every burn is covered by the
liquidity previously minted on the same position.  Sequences produced by
replaying the logs of an actual pool are valid. -/
def Valid (es : List Event) : Prop := validAux [] es = true

instance : DecidablePred Valid := fun es => by
  unfold Valid
  infer_instance

/-! ### Swap simulation

The swap loop calls four functions of the external `uniswap_v3_math` crate.
That crate is not part of this repository, so it is treated as an abstract
kernel of fallible functions; every theorem about the swap loop is
quantified over the kernel.  Panics of the embedded code itself (the
`self.ticks[&tick_next]` indexing) are modelled by a dedicated error. -/

/-- Errors of the simulated swap.  `math` stands for any
`uniswap_v3_math` error, `missingTick` for the panic of indexing `ticks`
with an absent key, `outOfFuel` for exhaustion of the loop fuel. -/
inductive SwapSimError
  | math
  | missingTick
  | outOfFuel
deriving DecidableEq, Repr

/-- Abstract interface of the `uniswap_v3_math` functions used by the swap
loop. -/
structure MathKernel where
  next_within_one_word :
    HMap Int Nat → Int → Int → Bool → Except SwapSimError (Int × Bool)
  get_sqrt_ratio_at_tick : Int → Except SwapSimError Nat
  get_tick_at_sqrt_ratio : Nat → Except SwapSimError Int
  compute_swap_step :
    Nat → Nat → Nat → Int → Nat → Except SwapSimError (Nat × Nat × Nat × Nat)

/-- The `CurrentState` struct: transient per-swap state. -/
structure CurrentState where
  amount_specified_remaining : Int
  amount_calculated : Int
  sqrt_price_x_96 : Nat
  tick : Int
  liquidity : Nat
deriving DecidableEq, Repr

/-- Rust `i32::clamp`. -/
def clampTick (t lo hi : Int) : Int :=
  if t < lo then lo else if hi < t then hi else t

/-- One while-loop of `simulate_swap` (lines 202-295 of the source), with a
fuel argument for termination.  Each iteration finds the next tick, computes
the swap step through the kernel, updates the running amounts with wrapping
`I256` arithmetic, and crosses the tick boundary when the price reached it. -/
def swapLoop (K : MathKernel) (p : UniswapV3Pool) (zero_for_one : Bool)
    (sqrt_price_limit_x_96 : Nat) :
    Nat → CurrentState → Except SwapSimError CurrentState
  | 0, _ => .error .outOfFuel
  | fuel + 1, current_state =>
    if current_state.amount_specified_remaining ≠ 0 ∧
        current_state.sqrt_price_x_96 ≠ sqrt_price_limit_x_96 then do
      let sqrt_price_start_x_96 := current_state.sqrt_price_x_96
      let next ← K.next_within_one_word p.tick_bitmap current_state.tick
        p.tick_spacing zero_for_one
      let tick_next := clampTick next.1 MIN_TICK MAX_TICK
      let initialized_step := next.2
      let sqrt_price_next_x96 ← K.get_sqrt_ratio_at_tick tick_next
      let swap_target_sqrt_ratio :=
        if zero_for_one then
          if sqrt_price_next_x96 < sqrt_price_limit_x_96 then sqrt_price_limit_x_96
          else sqrt_price_next_x96
        else
          if sqrt_price_next_x96 > sqrt_price_limit_x_96 then sqrt_price_limit_x_96
          else sqrt_price_next_x96
      let step ← K.compute_swap_step current_state.sqrt_price_x_96
        swap_target_sqrt_ratio current_state.liquidity
        current_state.amount_specified_remaining p.fee
      let sqrt_price_new := step.1
      let amount_in_step := step.2.1
      let amount_out_step := step.2.2.1
      let fee_amount := step.2.2.2
      let amount_specified_remaining :=
        ws256 (current_state.amount_specified_remaining -
          ws256 (((amount_in_step + fee_amount) % 2 ^ 256 : Nat) : Int))
      let amount_calculated :=
        ws256 (current_state.amount_calculated - ws256 (amount_out_step : Int))
      let base : CurrentState :=
        { current_state with
            sqrt_price_x_96 := sqrt_price_new
            amount_specified_remaining := amount_specified_remaining
            amount_calculated := amount_calculated }
      if sqrt_price_new = sqrt_price_next_x96 then
        if initialized_step then
          match p.ticks.get? tick_next with
          | none => .error .missingTick
          | some info =>
            let liquidity_net :=
              if zero_for_one then ws128 (-info.liquidity_net)
              else info.liquidity_net
            let liquidity := u128AddI128 current_state.liquidity liquidity_net
            let tick :=
              if zero_for_one then ws32 (tick_next - 1) else tick_next
            swapLoop K p zero_for_one sqrt_price_limit_x_96 fuel
              { base with liquidity := liquidity, tick := tick }
        else
          swapLoop K p zero_for_one sqrt_price_limit_x_96 fuel base
      else
        if sqrt_price_new ≠ sqrt_price_start_x_96 then do
          let t ← K.get_tick_at_sqrt_ratio sqrt_price_new
          swapLoop K p zero_for_one sqrt_price_limit_x_96 fuel
            { base with tick := t }
        else
          swapLoop K p zero_for_one sqrt_price_limit_x_96 fuel base
    else .ok current_state

/-- The while-loop of `simulate_swap_mut` (lines 327-420 of the source),
which is a verbatim copy of the loop of `simulate_swap`. -/
def swapLoopMut (K : MathKernel) (p : UniswapV3Pool) (zero_for_one : Bool)
    (sqrt_price_limit_x_96 : Nat) :
    Nat → CurrentState → Except SwapSimError CurrentState
  | 0, _ => .error .outOfFuel
  | fuel + 1, current_state =>
    if current_state.amount_specified_remaining ≠ 0 ∧
        current_state.sqrt_price_x_96 ≠ sqrt_price_limit_x_96 then do
      let sqrt_price_start_x_96 := current_state.sqrt_price_x_96
      let next ← K.next_within_one_word p.tick_bitmap current_state.tick
        p.tick_spacing zero_for_one
      let tick_next := clampTick next.1 MIN_TICK MAX_TICK
      let initialized_step := next.2
      let sqrt_price_next_x96 ← K.get_sqrt_ratio_at_tick tick_next
      let swap_target_sqrt_ratio :=
        if zero_for_one then
          if sqrt_price_next_x96 < sqrt_price_limit_x_96 then sqrt_price_limit_x_96
          else sqrt_price_next_x96
        else
          if sqrt_price_next_x96 > sqrt_price_limit_x_96 then sqrt_price_limit_x_96
          else sqrt_price_next_x96
      let step ← K.compute_swap_step current_state.sqrt_price_x_96
        swap_target_sqrt_ratio current_state.liquidity
        current_state.amount_specified_remaining p.fee
      let sqrt_price_new := step.1
      let amount_in_step := step.2.1
      let amount_out_step := step.2.2.1
      let fee_amount := step.2.2.2
      let amount_specified_remaining :=
        ws256 (current_state.amount_specified_remaining -
          ws256 (((amount_in_step + fee_amount) % 2 ^ 256 : Nat) : Int))
      let amount_calculated :=
        ws256 (current_state.amount_calculated - ws256 (amount_out_step : Int))
      let base : CurrentState :=
        { current_state with
            sqrt_price_x_96 := sqrt_price_new
            amount_specified_remaining := amount_specified_remaining
            amount_calculated := amount_calculated }
      if sqrt_price_new = sqrt_price_next_x96 then
        if initialized_step then
          match p.ticks.get? tick_next with
          | none => .error .missingTick
          | some info =>
            let liquidity_net :=
              if zero_for_one then ws128 (-info.liquidity_net)
              else info.liquidity_net
            let liquidity := u128AddI128 current_state.liquidity liquidity_net
            let tick :=
              if zero_for_one then ws32 (tick_next - 1) else tick_next
            swapLoopMut K p zero_for_one sqrt_price_limit_x_96 fuel
              { base with liquidity := liquidity, tick := tick }
        else
          swapLoopMut K p zero_for_one sqrt_price_limit_x_96 fuel base
      else
        if sqrt_price_new ≠ sqrt_price_start_x_96 then do
          let t ← K.get_tick_at_sqrt_ratio sqrt_price_new
          swapLoopMut K p zero_for_one sqrt_price_limit_x_96 fuel
            { base with tick := t }
        else
          swapLoopMut K p zero_for_one sqrt_price_limit_x_96 fuel base
    else .ok current_state

/-- The initial transient state built from the pool fields (lines 194-200
of the source).  `I256::from_raw(amount_in)` reinterprets the raw `U256`
bits as a signed value. -/
def initState (p : UniswapV3Pool) (amount_in : Nat) : CurrentState :=
  { sqrt_price_x_96 := p.sqrt_price
    amount_calculated := 0
    amount_specified_remaining := ws256 (amount_in : Int)
    tick := p.tick
    liquidity := p.liquidity }

/-- The `sqrt_price_limit_x_96` selected from the swap direction
(lines 187-191 of the source). -/
def swapPriceLimit (zero_for_one : Bool) : Nat :=
  if zero_for_one then MIN_SQRT_RATIO + 1 else MAX_SQRT_RATIO - 1

/-- The method `UniswapV3Pool::simulate_swap`, with the external math crate
abstracted by `K` and the while loop bounded by `fuel`. -/
def simulate_swap (K : MathKernel) (fuel : Nat) (p : UniswapV3Pool)
    (token_in : Nat) (amount_in : Nat) : Except SwapSimError Nat :=
  if amount_in = 0 then .ok 0
  else
    let zero_for_one := token_in == p.token_a
    let sqrt_price_limit_x_96 := swapPriceLimit zero_for_one
    do
      let final ← swapLoop K p zero_for_one sqrt_price_limit_x_96 fuel
        (initState p amount_in)
      .ok (wu256 (ws256 (-final.amount_calculated)))

/-- The method `UniswapV3Pool::simulate_swap_mut`: identical to
`simulate_swap` except that it commits the final `liquidity`, `sqrt_price`
and `tick` of the transient state back into the pool (lines 423-425). -/
def simulate_swap_mut (K : MathKernel) (fuel : Nat) (p : UniswapV3Pool)
    (token_in : Nat) (amount_in : Nat) :
    Except SwapSimError (Nat × UniswapV3Pool) :=
  if amount_in = 0 then .ok (0, p)
  else
    let zero_for_one := token_in == p.token_a
    let sqrt_price_limit_x_96 := swapPriceLimit zero_for_one
    do
      let final ← swapLoopMut K p zero_for_one sqrt_price_limit_x_96 fuel
        (initState p amount_in)
      .ok (wu256 (ws256 (-final.amount_calculated)),
        { p with
            liquidity := final.liquidity
            sqrt_price := final.sqrt_price_x_96
            tick := final.tick })

/-! ### Event log decoding and `sync_from_log` -/

/-- A raw EVM log: 32-byte topics (as 256-bit numbers) and a data byte
string. -/
structure Log where
  topics : List Nat
  data : List Nat

/-- The error enum of the repository relevant to `sync_from_log`
(`EventLogError` of `errors.rs`; only the variants reachable here are
modelled). -/
inductive EventLogError
  | invalidEventSignature
  | abiDecodeFailed
deriving DecidableEq, Repr

/-- Outcome of running `sync_from_log`: a returned `EventLogError`, or a
Rust panic (`expect` on a failed decode, or out-of-bounds topic indexing). -/
inductive SyncError
  | panicked
  | eventLog (e : EventLogError)
deriving DecidableEq, Repr

/-- Keccak-256 signature of the Swap event (source constant
`SWAP_EVENT_SIGNATURE`). -/
def SWAP_EVENT_SIGNATURE : Nat :=
  0xc42079f94a6350d7e6235f291749249928cc2ac818eb64fed8004e115fbcca67

/-- Keccak-256 signature of the Burn event (source constant
`BURN_EVENT_SIGNATURE`). -/
def BURN_EVENT_SIGNATURE : Nat :=
  0x0c396cd989a39f4459b5fa1aed6a9a8dcdbc45908acfd67e028cd568da98982c

/-- Keccak-256 signature of the Mint event (source constant
`MINT_EVENT_SIGNATURE`). -/
def MINT_EVENT_SIGNATURE : Nat :=
  0x7a53080ba414158be7ec69b987b5fb7d07dee101fe85488f0853ae16239d0bde

/-- Rust slice indexing `log.topics[i]`, which panics when out of bounds. -/
def topicAt (log : Log) (i : Nat) : Except SyncError Nat :=
  match log.topics.get? i with
  | some t => .ok t
  | none => .error .panicked

/-- Big-endian bytes to number. -/
def beBytesToNat (bs : List Nat) : Nat :=
  bs.foldl (fun acc b => acc * 256 + b % 256) 0

/-- Models the external `ethers::abi::decode` for a head-only tuple of `n`
static types: it fails (with an ABI error) when the data is shorter than
`32 * n` bytes, and otherwise yields the `n` big-endian 32-byte words. -/
def abiDecodeWords (n : Nat) (data : List Nat) : Except EventLogError (List Nat) :=
  if 32 * n ≤ data.length then
    .ok ((List.range n).map (fun i => beBytesToNat ((data.drop (32 * i)).take 32)))
  else .error .abiDecodeFailed

/-- Rust `Result::expect`: propagate the value, panic on the error. -/
def expectOk {α : Type} (r : Except EventLogError α) : Except SyncError α :=
  match r with
  | .ok a => .ok a
  | .error _ => .error .panicked

/-- Word `i` of a decoded tuple (`log_data[i]`), with the `as_u128`
truncation-check panic of `ethers` (`U256::as_u128` panics above
`u128::MAX`). -/
def wordAsU128 (ws : List Nat) (i : Nat) : Except SyncError Nat :=
  match ws.get? i with
  | some w => if w < 2 ^ 128 then .ok w else .error .panicked
  | none => .error .panicked

/-- Untruncated word `i` of a decoded tuple. -/
def wordAt (ws : List Nat) (i : Nat) : Except SyncError Nat :=
  match ws.get? i with
  | some w => .ok w
  | none => .error .panicked

/-- The `I256::from_raw(U256::from_big_endian(topic)).as_i32()` pattern used
for tick topics, modelled as two's-complement truncation of the signed
256-bit value to 32 bits. -/
def topicAsI32 (t : Nat) : Int := ws32 (ws256 (t : Int))

/-- The method `UniswapV3Pool::decode_burn_log`.  The ABI decode failure is
turned into a panic by the `.expect("Could not get log data")` in the
source. -/
def decode_burn_log (log : Log) : Except SyncError (Int × Int × Nat) := do
  let t2 ← topicAt log 2
  let t3 ← topicAt log 3
  let ws ← expectOk (abiDecodeWords 3 log.data)
  let amount ← wordAsU128 ws 0
  .ok (topicAsI32 t2, topicAsI32 t3, amount)

/-- The method `UniswapV3Pool::decode_mint_log` (a mint-data tuple has a
leading `sender` address; `amount` is word 1). -/
def decode_mint_log (log : Log) : Except SyncError (Int × Int × Nat) := do
  let t2 ← topicAt log 2
  let t3 ← topicAt log 3
  let ws ← expectOk (abiDecodeWords 4 log.data)
  let amount ← wordAsU128 ws 1
  .ok (topicAsI32 t2, topicAsI32 t3, amount)

/-- The method `UniswapV3Pool::decode_swap_log` (five fields; only
`sqrtPriceX96`, `liquidity`, `tick` are used by the caller). -/
def decode_swap_log (log : Log) : Except SyncError (Nat × Nat × Int) := do
  let ws ← expectOk (abiDecodeWords 5 log.data)
  let sqrt_price ← wordAt ws 2
  let liquidity ← wordAsU128 ws 3
  let tickWord ← wordAt ws 4
  .ok (sqrt_price, liquidity, topicAsI32 tickWord)

/-- The method `UniswapV3Pool::sync_from_burn_log`. -/
def sync_from_burn_log (p : UniswapV3Pool) (log : Log) :
    Except SyncError UniswapV3Pool := do
  let d ← decode_burn_log log
  .ok (modify_position p d.1 d.2.1 (ws128 (-(ws128 (d.2.2 : Int)))))

/-- The method `UniswapV3Pool::sync_from_mint_log`. -/
def sync_from_mint_log (p : UniswapV3Pool) (log : Log) :
    Except SyncError UniswapV3Pool := do
  let d ← decode_mint_log log
  .ok (modify_position p d.1 d.2.1 (ws128 (d.2.2 : Int)))

/-- The method `UniswapV3Pool::sync_from_swap_log`: overwrite `sqrt_price`,
`liquidity` and `tick` from the payload. -/
def sync_from_swap_log (p : UniswapV3Pool) (log : Log) :
    Except SyncError UniswapV3Pool := do
  let d ← decode_swap_log log
  .ok { p with sqrt_price := d.1, liquidity := d.2.1, tick := d.2.2 }

/-- The trait method `sync_from_log` (lines 132-146 of the source):
dispatch on `topics[0]`. -/
def sync_from_log (p : UniswapV3Pool) (log : Log) :
    Except SyncError UniswapV3Pool := do
  let event_signature ← topicAt log 0
  if event_signature = BURN_EVENT_SIGNATURE then sync_from_burn_log p log
  else if event_signature = MINT_EVENT_SIGNATURE then sync_from_mint_log p log
  else if event_signature = SWAP_EVENT_SIGNATURE then sync_from_swap_log p log
  else .error (.eventLog .invalidEventSignature)

/-! ### Block windows of `populate_tick_data` -/

/-- The iterator `(creation_block..=current_block).step_by(100000)` of
`populate_tick_data`. -/
def windowStarts (creation current : Nat) : List Nat :=
  if creation ≤ current then creation :: windowStarts (creation + 100000) current
  else []
termination_by current + 1 - creation

/-- The `(from_block, to_block)` filter ranges issued by
`populate_tick_data`: `to_block = from_block + step as u64` (line 577 of
the source), a `u64` addition that wraps modulo `2^64` in release mode
when `from_block > 2^64 - 100001`.  The starts themselves never overflow:
the iterator stops once the start exceeds `current_block`, itself a
`u64`. -/
def tickDataWindows (creation current : Nat) : List (Nat × Nat) :=
  (windowStarts creation current).map (fun f => (f, (f + 100000) % 2 ^ 64))

/-- Membership of a block in an inclusive log-filter range. -/
def inWindow (w : Nat × Nat) (b : Nat) : Prop := w.1 ≤ b ∧ b ≤ w.2

instance (w : Nat × Nat) (b : Nat) : Decidable (inWindow w b) := by
  unfold inWindow
  infer_instance

/-! ### Concrete fixtures used by witnesses and counterexamples -/

/-- A pool with empty `ticks` and `tick_bitmap` maps and the given tick
spacing; all scalar fields zero except the token addresses. -/
def emptyPool (spacing : Int) : UniswapV3Pool :=
  { address := 0, token_a := 1, token_a_decimals := 0, token_b := 2,
    token_b_decimals := 0, liquidity := 0, sqrt_price := 0, fee := 0,
    tick := 0, tick_spacing := spacing,
    tick_bitmap := ⟨∅, fun _ => 0⟩, ticks := ⟨∅, fun _ => Info.zero⟩ }

/-- A pool used to exercise the swap loop in witnesses. -/
def samplePool : UniswapV3Pool :=
  { emptyPool 10 with sqrt_price := 5, liquidity := 7, tick := 3 }

/-- A concrete math kernel whose swap step consumes the whole remaining
amount, so that the loop terminates after one iteration; used only as a
test input for witnesses. -/
def sampleKernel : MathKernel :=
  { next_within_one_word := fun _ t _ _ => .ok (t, false)
    get_sqrt_ratio_at_tick := fun _ => .ok 0
    get_tick_at_sqrt_ratio := fun _ => .ok 0
    compute_swap_step := fun _ target _ rem _ => .ok (target, wu256 rem, 0, 0) }

/-- Event sequence refuting claim C3 as stated: an unmatched burn whose
two sides hit two previously initialized ticks of different positions. -/
def cexEvents3 : List Event := [.mint 0 1 5, .mint 2 3 5, .burn 0 2 5]

/-- Event sequence refuting claim C4 as stated: a mint whose two ticks
share one bitmap bit (spacing 10, ticks 1 and 2 both compress to 0). -/
def cexEvents4 : List Event := [.mint 1 2 5]

/-- A valid event sequence (the burn is covered by the earlier mint on the
same position), used by the C3 witness. -/
def validEvents3 : List Event := [.mint 0 1 5, .burn 0 1 5]

/-- A valid event sequence whose ticks are multiples of 10 inside the
legal range, used by the C4 witness. -/
def validEvents4 : List Event := [.mint (-20) 30 7]

/-- Sum of `liquidity_net` over the entries present in the ticks map. -/
def tickNetSum (p : UniswapV3Pool) : Int :=
  p.ticks.keys.sum (fun t => (p.ticks.val t).liquidity_net)

/-- Bit of `tick_bitmap` at compressed tick `c`, i.e. bit `position(c).2` of
word `position(c).1`, with an absent word read as zero. -/
def bitAtCompressed (p : UniswapV3Pool) (c : Int) : Bool :=
  (p.tick_bitmap.getD (position c).1 0).testBit (position c).2

/-- Bit of `tick_bitmap` associated to tick `t` by the mapping
`t ↦ position(t / tick_spacing)` of the claim (Rust truncating division). -/
def tickBit (p : UniswapV3Pool) (t : Int) : Bool :=
  bitAtCompressed p (t.tdiv p.tick_spacing)

/-- A burn log whose data fails ABI decoding (empty data). -/
def badBurnLog : Log := ⟨[BURN_EVENT_SIGNATURE, 0, 0, 0], []⟩

/-- Lower ticks mentioned by the events. -/
def lowersOf (es : List Event) : Finset Int := (es.map Event.lo).toFinset

/-- Upper ticks mentioned by the events. -/
def uppersOf (es : List Event) : Finset Int := (es.map Event.hi).toFinset

/-- The ticks-map part of the replay invariant: a tick is present exactly
when its ghost gross liquidity is nonzero, and present entries carry the
ghost gross and net values. -/
def TicksInv (es : List Event) (p : UniswapV3Pool) : Prop :=
  (∀ t : Int, t ∈ p.ticks.keys ↔ grossSpec es t ≠ 0) ∧
  (∀ t ∈ p.ticks.keys,
    ((p.ticks.val t).liquidity_gross : Int) = grossSpec es t ∧
    (p.ticks.val t).liquidity_net = netSpec es t)

/-- The bitmap part of the replay invariant, restricted to legal ticks:
for every tick `t` that is a multiple of the pool spacing and lies in
`[MIN_TICK, MAX_TICK]`, bit `position (t / tick_spacing)` is set exactly
when `t` is present in the ticks map.  The restriction matters: `position`
wraps the word index to an `i16`, so ticks far outside the legal range
alias the bits of legal ones. -/
def BitSync (p : UniswapV3Pool) : Prop :=
  ∀ t : Int, p.tick_spacing ∣ t → MIN_TICK ≤ t → t ≤ MAX_TICK →
    tickBit p t = decide (t ∈ p.ticks.keys)

/-- All events use ticks that are multiples of the pool spacing and lie in
the legal tick range (as every on-chain mint or burn does). -/
def SpacedEvents (s : Int) (es : List Event) : Prop :=
  ∀ e ∈ es, s ∣ e.lo ∧ s ∣ e.hi ∧
    MIN_TICK ≤ e.lo ∧ e.lo ≤ MAX_TICK ∧ MIN_TICK ≤ e.hi ∧ e.hi ≤ MAX_TICK

/-! ## Theorems -/

/-! ### Arithmetic helper lemmas -/

theorem wu128_lt (n : Int) : wu128 n < 2 ^ 128 := by
  have h : (0 : Int) < (2 ^ 128 : Nat) := by positivity
  have := Int.emod_lt_of_pos n h
  unfold wu128
  omega

/-- On in-range values the branchy Rust pattern is plain modular addition. -/
theorem u128AddI128_emod (x : Nat) (d : Int) (hd₀ : -(2 ^ 127) ≤ d)
    (hd₁ : d < 2 ^ 127) :
    (u128AddI128 x d : Int) = ((x : Int) + d) % 2 ^ 128 := by
  unfold u128AddI128
  by_cases h : d < 0
  · simp only [if_pos h]
    have h1 : ((wu128 (-d) : Nat) : Int) = -d := by
      unfold wu128
      have h2 : (-d) % ((2 ^ 128 : Nat) : Int) = -d := by push_cast; omega
      rw [h2]
      exact Int.toNat_of_nonneg (by omega)
    have hle : wu128 (-d) ≤ x + 2 ^ 128 := by
      have := wu128_lt (-d); omega
    have h3 : ((x + 2 ^ 128 - wu128 (-d) : Nat) : Int) = (x : Int) + 2 ^ 128 + d := by
      push_cast [Nat.cast_sub hle] at h1 ⊢
      omega
    rw [Int.ofNat_emod, h3]
    push_cast
    omega
  · simp only [if_neg h]
    have h1 : ((wu128 d : Nat) : Int) = d := by
      unfold wu128
      have h2 : d % ((2 ^ 128 : Nat) : Int) = d := by push_cast; omega
      rw [h2]
      exact Int.toNat_of_nonneg (by omega)
    rw [Int.ofNat_emod]
    push_cast [h1]
    omega

/-- On values whose exact sum stays in `[0, 2^128)` the branchy Rust pattern
computes the exact integer sum. -/
theorem u128AddI128_exact (x : Nat) (d : Int) (hd₀ : -(2 ^ 127) ≤ d)
    (hd₁ : d < 2 ^ 127) (h₀ : 0 ≤ (x : Int) + d) (h₁ : (x : Int) + d < 2 ^ 128) :
    (u128AddI128 x d : Int) = (x : Int) + d := by
  rw [u128AddI128_emod x d hd₀ hd₁]
  exact Int.emod_eq_of_lt h₀ (by exact_mod_cast h₁)

/-- Signed wrap is the identity on in-range values. -/
theorem ws128_eq_self (n : Int) (h₀ : -(2 ^ 127) ≤ n) (h₁ : n < 2 ^ 127) :
    ws128 n = n := by
  unfold ws128
  rw [Int.emod_eq_of_lt (by omega) (by omega)]
  omega

theorem MAX_SQRT_RATIO_value :
    MAX_SQRT_RATIO = 1461446703485210103287273052203988822378723970342 := by
  norm_num [ MAX_SQRT_RATIO]

/-! ### Map lemmas -/

variable {α β : Type} [DecidableEq α]

@[simp]
theorem HMap.keys_insert (m : HMap α β) (k : α) (v : β) :
    (m.insert k v).keys = Insert.insert k m.keys := rfl

@[simp]
theorem HMap.keys_remove (m : HMap α β) (k : α) :
    (m.remove k).keys = m.keys.erase k := rfl

@[simp]
theorem HMap.val_insert_same (m : HMap α β) (k : α) (v : β) :
    (m.insert k v).val k = v := by
  simp [HMap.insert]

theorem HMap.val_insert_ne (m : HMap α β) (k k' : α) (v : β) (h : k' ≠ k) :
    (m.insert k v).val k' = m.val k' := by
  simp [HMap.insert, Function.update_noteq h]

@[simp]
theorem HMap.val_remove (m : HMap α β) (k k' : α) :
    (m.remove k).val k' = m.val k' := rfl

theorem HMap.get?_insert_same (m : HMap α β) (k : α) (v : β) :
    (m.insert k v).get? k = some v := by
  simp [HMap.get?, HMap.insert]

theorem HMap.get?_insert_ne (m : HMap α β) (k k' : α) (v : β) (h : k' ≠ k) :
    (m.insert k v).get? k' = m.get? k' := by
  simp [HMap.get?, HMap.insert, Function.update_noteq h, h]

theorem HMap.getD_insert_same (m : HMap α β) (k : α) (v d : β) :
    (m.insert k v).getD k d = v := by
  simp [HMap.getD, HMap.insert]

theorem HMap.getD_insert_ne (m : HMap α β) (k k' : α) (v d : β) (h : k' ≠ k) :
    (m.insert k v).getD k' d = m.getD k' d := by
  simp [HMap.getD, HMap.insert, Function.update_noteq h, h]


/-! ### Frame lemmas for the tick mutators -/

@[simp]
theorem update_tick_tick (p : UniswapV3Pool) (t d : Int) (up : Bool) :
    ((update_tick p t d up).2).tick = p.tick := rfl

@[simp]
theorem update_tick_liquidity (p : UniswapV3Pool) (t d : Int) (up : Bool) :
    ((update_tick p t d up).2).liquidity = p.liquidity := rfl

@[simp]
theorem update_tick_tick_spacing (p : UniswapV3Pool) (t d : Int) (up : Bool) :
    ((update_tick p t d up).2).tick_spacing = p.tick_spacing := rfl

@[simp]
theorem update_tick_tick_bitmap (p : UniswapV3Pool) (t d : Int) (up : Bool) :
    ((update_tick p t d up).2).tick_bitmap = p.tick_bitmap := rfl

@[simp]
theorem flip_tick_tick (p : UniswapV3Pool) (t s : Int) :
    (flip_tick p t s).tick = p.tick := by
  unfold flip_tick
  dsimp only
  split <;> rfl

@[simp]
theorem flip_tick_liquidity (p : UniswapV3Pool) (t s : Int) :
    (flip_tick p t s).liquidity = p.liquidity := by
  unfold flip_tick
  dsimp only
  split <;> rfl

@[simp]
theorem flip_tick_tick_spacing (p : UniswapV3Pool) (t s : Int) :
    (flip_tick p t s).tick_spacing = p.tick_spacing := by
  unfold flip_tick
  dsimp only
  split <;> rfl

@[simp]
theorem flip_tick_ticks (p : UniswapV3Pool) (t s : Int) :
    (flip_tick p t s).ticks = p.ticks := by
  unfold flip_tick
  dsimp only
  split <;> rfl

@[simp]
theorem update_position_tick (p : UniswapV3Pool) (l u d : Int) :
    (update_position p l u d).tick = p.tick := by
  unfold update_position
  dsimp only
  repeat' split
  all_goals simp

@[simp]
theorem update_position_liquidity (p : UniswapV3Pool) (l u d : Int) :
    (update_position p l u d).liquidity = p.liquidity := by
  unfold update_position
  dsimp only
  repeat' split
  all_goals simp

@[simp]
theorem update_position_tick_spacing (p : UniswapV3Pool) (l u d : Int) :
    (update_position p l u d).tick_spacing = p.tick_spacing := by
  unfold update_position
  dsimp only
  repeat' split
  all_goals simp

@[simp]
theorem modify_position_tick (p : UniswapV3Pool) (l u d : Int) :
    (modify_position p l u d).tick = p.tick := by
  unfold modify_position
  dsimp only
  repeat' split
  all_goals simp

@[simp]
theorem modify_position_tick_spacing (p : UniswapV3Pool) (l u d : Int) :
    (modify_position p l u d).tick_spacing = p.tick_spacing := by
  unfold modify_position
  dsimp only
  repeat' split
  all_goals simp


/-! ### Except bind helpers -/

theorem except_bind_ok {ε α β : Type} (a : α) (f : α → Except ε β) :
    (Except.ok a >>= f : Except ε β) = f a := rfl

theorem except_bind_error {ε α β : Type} (e : ε) (f : α → Except ε β) :
    (Except.error e >>= f : Except ε β) = Except.error e := rfl

/-! ### Claim C10 -/

/-- C10: `modify_position(lower, upper, 0)` leaves the entire pool
unchanged: no ticks entry is inserted, `tick_bitmap` is untouched and the
`liquidity` field keeps its value. -/
theorem claim_C10_modify_position_zero (p : UniswapV3Pool) (l u : Int) :
    modify_position p l u 0 = p := rfl

/-! ### Claim C2 -/

/-- C2: for every pool state and `token_in`, a swap of amount zero returns
`Ok(0)` from both `simulate_swap` and `simulate_swap_mut`, and the latter
returns the pool with every field unchanged.  (Quantified over the
abstract math kernel and the loop fuel.) -/
theorem claim_C2_swap_zero (K : MathKernel) (fuel : Nat) (p : UniswapV3Pool)
    (token_in : Nat) :
    simulate_swap K fuel p token_in 0 = .ok 0 ∧
    simulate_swap_mut K fuel p token_in 0 = .ok (0, p) :=
  ⟨rfl, rfl⟩

/-! ### Claim C6 -/

/-- C6: `update_tick(t, Δ, upper)` returns `flipped = true` iff exactly one
of the gross liquidity before and after the update (the stored after-value
being `u128AddI128 before Δ`, the code wrapping 128-bit sum) is zero; it
sets `initialized = true` exactly when the gross liquidity before was zero;
and it moves `liquidity_net` by `-Δ` when `upper` and by `+Δ` otherwise
(with wrapping `i128` arithmetic). -/
theorem claim_C6_update_tick (p : UniswapV3Pool) (t d : Int) (upper : Bool) :
    ((update_tick p t d upper).1 = true ↔
      Xor' (u128AddI128 ((p.ticks.get? t).getD Info.zero).liquidity_gross d = 0)
        (((p.ticks.get? t).getD Info.zero).liquidity_gross = 0)) ∧
    (update_tick p t d upper).2.ticks.get? t = some
      { liquidity_gross := u128AddI128 ((p.ticks.get? t).getD Info.zero).liquidity_gross d
        liquidity_net :=
          if upper then ws128 (((p.ticks.get? t).getD Info.zero).liquidity_net - d)
          else ws128 (((p.ticks.get? t).getD Info.zero).liquidity_net + d)
        initialized :=
          if ((p.ticks.get? t).getD Info.zero).liquidity_gross = 0 then true
          else ((p.ticks.get? t).getD Info.zero).initialized } := by
  have key : ∀ a b : Nat, (((a == 0) != (b == 0)) = true ↔ Xor' (a = 0) (b = 0)) := by
    intro a b
    by_cases h1 : a = 0 <;> by_cases h2 : b = 0 <;> simp [h1, h2, Xor']
  unfold update_tick
  cases h : p.ticks.get? t with
  | none =>
    refine ⟨?_, ?_⟩
    · simpa using key (u128AddI128 Info.zero.liquidity_gross d) Info.zero.liquidity_gross
    · by_cases hu : upper <;>
        simp [h, hu, HMap.get?_insert_same, Info.zero]
  | some info =>
    refine ⟨?_, ?_⟩
    · simpa using key (u128AddI128 info.liquidity_gross d) info.liquidity_gross
    · by_cases hg : info.liquidity_gross = 0 <;> by_cases hu : upper <;>
        simp [h, hg, hu, HMap.get?_insert_same]

/-! ### Claim C7 -/

/-- C7: for `Δ ≠ 0`, `modify_position(lower, upper, Δ)` updates the pool
liquidity field by `Δ` (the code wrapping 128-bit sum) exactly when the
current tick lies strictly between `lower` and `upper`, and leaves it
unchanged otherwise (in particular when the tick equals either bound). -/
theorem claim_C7_modify_position_liquidity (p : UniswapV3Pool) (l u d : Int)
    (hd : d ≠ 0) :
    ((l < p.tick ∧ p.tick < u) →
      (modify_position p l u d).liquidity = u128AddI128 p.liquidity d) ∧
    (¬(l < p.tick ∧ p.tick < u) →
      (modify_position p l u d).liquidity = p.liquidity) := by
  constructor <;> intro h <;> simp [modify_position, hd, h]

/-- Witness for C7 at a concrete pool with tick 3 inside `(0, 10)`. -/
theorem claim_C7_witness :
    (7 : Int) ≠ 0 ∧
    (((0 : Int) < samplePool.tick ∧ samplePool.tick < 10) →
      (modify_position samplePool 0 10 7).liquidity = u128AddI128 samplePool.liquidity 7) ∧
    (¬((0 : Int) < samplePool.tick ∧ samplePool.tick < 10) →
      (modify_position samplePool 0 10 7).liquidity = samplePool.liquidity) :=
  ⟨by decide, claim_C7_modify_position_liquidity samplePool 0 10 7 (by decide)⟩

/-! ### Claim C9 -/

/-- C9: both swap simulators decide the direction solely through the
equality test `token_in == token_a`: two input tokens on the same side of
that test (in particular, an address that is neither pool token, which
falls on the same side as `token_b`) produce identical results, errors
included; no separate error is raised for an unrecognized token. -/
theorem claim_C9_direction_by_token_a (K : MathKernel) (fuel : Nat)
    (p : UniswapV3Pool) (amount_in : Nat) (t1 t2 : Nat)
    (h : t1 = p.token_a ↔ t2 = p.token_a) :
    simulate_swap K fuel p t1 amount_in = simulate_swap K fuel p t2 amount_in ∧
    simulate_swap_mut K fuel p t1 amount_in = simulate_swap_mut K fuel p t2 amount_in := by
  have hb : (t1 == p.token_a) = (t2 == p.token_a) := by
    by_cases h1 : t1 = p.token_a
    · simp [h1, h.mp h1]
    · have h2 : ¬t2 = p.token_a := fun hh => h1 (h.mpr hh)
      simp [h1, h2]
  unfold simulate_swap simulate_swap_mut
  rw [hb]
  exact ⟨rfl, rfl⟩

/-- Witness for C9: tokens 5 and 7 are both different from the pool token
`token_a = 1`, so they are interchangeable inputs. -/
theorem claim_C9_witness :
    ((5 : Nat) = samplePool.token_a ↔ (7 : Nat) = samplePool.token_a) ∧
    (simulate_swap sampleKernel 2 samplePool 5 9 =
      simulate_swap sampleKernel 2 samplePool 7 9 ∧
    simulate_swap_mut sampleKernel 2 samplePool 5 9 =
      simulate_swap_mut sampleKernel 2 samplePool 7 9) :=
  ⟨by decide, claim_C9_direction_by_token_a sampleKernel 2 samplePool 9 5 7 (by decide)⟩


/-! ### Claim C1 -/

/-- The two while-loops are verbatim copies of one another, hence equal. -/
theorem swapLoopMut_eq_swapLoop (K : MathKernel) (p : UniswapV3Pool)
    (zfo : Bool) (limit : Nat) :
    ∀ fuel cs, swapLoopMut K p zfo limit fuel cs = swapLoop K p zfo limit fuel cs := by
  intro fuel
  induction fuel with
  | zero => intro cs; rfl
  | succ n ih =>
    intro cs
    simp only [swapLoopMut, swapLoop, ih]

/-- C1: whenever `simulate_swap_mut` succeeds, it returns the same output
amount that `simulate_swap` returns, the committed pool agrees with the
final transient state of the pure swap loop on `sqrt_price`, `tick` and
`liquidity` (for a zero input amount nothing runs and the pool is returned
untouched), and every other pool field is unchanged. -/
theorem claim_C1_simulate_swap_mut_refines (K : MathKernel) (fuel : Nat)
    (p : UniswapV3Pool) (token_in amount_in : Nat) (out : Nat)
    (p2 : UniswapV3Pool)
    (h : simulate_swap_mut K fuel p token_in amount_in = .ok (out, p2)) :
    simulate_swap K fuel p token_in amount_in = .ok out ∧
    p2.address = p.address ∧ p2.token_a = p.token_a ∧
    p2.token_a_decimals = p.token_a_decimals ∧ p2.token_b = p.token_b ∧
    p2.token_b_decimals = p.token_b_decimals ∧ p2.fee = p.fee ∧
    p2.tick_spacing = p.tick_spacing ∧ p2.tick_bitmap = p.tick_bitmap ∧
    p2.ticks = p.ticks ∧
    (amount_in = 0 → p2 = p) ∧
    (amount_in ≠ 0 → ∃ final,
      swapLoop K p (token_in == p.token_a)
        (swapPriceLimit (token_in == p.token_a)) fuel (initState p amount_in) =
        .ok final ∧
      p2.sqrt_price = final.sqrt_price_x_96 ∧ p2.tick = final.tick ∧
      p2.liquidity = final.liquidity ∧
      out = wu256 (ws256 (-final.amount_calculated))) := by
  by_cases h0 : amount_in = 0
  · unfold simulate_swap_mut at h
    rw [if_pos h0] at h
    simp only [Except.ok.injEq, Prod.mk.injEq] at h
    obtain ⟨hout, hp⟩ := h
    subst hout hp
    unfold simulate_swap
    rw [if_pos h0]
    refine ⟨rfl, rfl, rfl, rfl, rfl, rfl, rfl, rfl, rfl, rfl, fun _ => rfl, fun hc => absurd h0 hc⟩
  · unfold simulate_swap_mut at h
    rw [if_neg h0] at h
    dsimp only at h
    rcases hloop : swapLoopMut K p (token_in == p.token_a)
        (swapPriceLimit (token_in == p.token_a)) fuel (initState p amount_in) with e | final
    · rw [hloop, except_bind_error] at h
      exact absurd h (by simp)
    · rw [hloop, except_bind_ok] at h
      simp only [Except.ok.injEq, Prod.mk.injEq] at h
      obtain ⟨hout, hp⟩ := h
      subst hout
      have hpure : swapLoop K p (token_in == p.token_a)
          (swapPriceLimit (token_in == p.token_a)) fuel (initState p amount_in) =
          .ok final := by
        rw [← swapLoopMut_eq_swapLoop]
        exact hloop
      constructor
      · unfold simulate_swap
        rw [if_neg h0]
        dsimp only
        rw [hpure, except_bind_ok]
      · subst hp
        refine ⟨rfl, rfl, rfl, rfl, rfl, rfl, rfl, rfl, rfl, fun hc => absurd hc h0, fun _ => ?_⟩
        exact ⟨final, hpure, rfl, rfl, rfl, rfl⟩

/-- Witness for C1 at a concrete kernel, pool and nonzero input; the
sample kernel consumes the whole input in one step, so the loop terminates
with `sqrt_price = 0` and the remaining fields unchanged. -/
theorem claim_C1_witness :
    simulate_swap sampleKernel 2 samplePool 5 7 = .ok 0 ∧
    ({ samplePool with sqrt_price := 0 } : UniswapV3Pool).address = samplePool.address ∧
    ({ samplePool with sqrt_price := 0 } : UniswapV3Pool).token_a = samplePool.token_a ∧
    ({ samplePool with sqrt_price := 0 } : UniswapV3Pool).token_a_decimals = samplePool.token_a_decimals ∧
    ({ samplePool with sqrt_price := 0 } : UniswapV3Pool).token_b = samplePool.token_b ∧
    ({ samplePool with sqrt_price := 0 } : UniswapV3Pool).token_b_decimals = samplePool.token_b_decimals ∧
    ({ samplePool with sqrt_price := 0 } : UniswapV3Pool).fee = samplePool.fee ∧
    ({ samplePool with sqrt_price := 0 } : UniswapV3Pool).tick_spacing = samplePool.tick_spacing ∧
    ({ samplePool with sqrt_price := 0 } : UniswapV3Pool).tick_bitmap = samplePool.tick_bitmap ∧
    ({ samplePool with sqrt_price := 0 } : UniswapV3Pool).ticks = samplePool.ticks ∧
    ((7 : Nat) = 0 → ({ samplePool with sqrt_price := 0 } : UniswapV3Pool) = samplePool) ∧
    ((7 : Nat) ≠ 0 → ∃ final,
      swapLoop sampleKernel samplePool ((5 : Nat) == samplePool.token_a)
        (swapPriceLimit ((5 : Nat) == samplePool.token_a)) 2 (initState samplePool 7) =
        .ok final ∧
      ({ samplePool with sqrt_price := 0 } : UniswapV3Pool).sqrt_price = final.sqrt_price_x_96 ∧
      ({ samplePool with sqrt_price := 0 } : UniswapV3Pool).tick = final.tick ∧
      ({ samplePool with sqrt_price := 0 } : UniswapV3Pool).liquidity = final.liquidity ∧
      0 = wu256 (ws256 (-final.amount_calculated))) :=
  claim_C1_simulate_swap_mut_refines sampleKernel 2 samplePool 5 7 0
    { samplePool with sqrt_price := 0 } rfl


/-! ### Claim C8 -/

/-- One-step unfolding of the block-window iterator. -/
theorem windowStarts_unfold (c cur : Nat) :
    windowStarts c cur =
      if c ≤ cur then c :: windowStarts (c + 100000) cur else [] := by
  rw [windowStarts]

/-- The iterator yields exactly the multiples-of-100000 offsets from the
creation block that do not exceed the current block. -/
theorem mem_windowStarts (cur x : Nat) : ∀ c,
    (x ∈ windowStarts c cur ↔ (∃ k, x = c + 100000 * k) ∧ x ≤ cur) := by
  suffices h : ∀ n c, cur + 1 - c ≤ n →
      (x ∈ windowStarts c cur ↔ (∃ k, x = c + 100000 * k) ∧ x ≤ cur) by
    intro c
    exact h (cur + 1 - c) c le_rfl
  intro n
  induction n with
  | zero =>
    intro c hc
    rw [windowStarts_unfold, if_neg (by omega)]
    simp only [List.not_mem_nil, false_iff]
    rintro ⟨⟨k, rfl⟩, hle⟩
    omega
  | succ n ih =>
    intro c hc
    rw [windowStarts_unfold]
    by_cases hle : c ≤ cur
    · rw [if_pos hle]
      rw [List.mem_cons, ih (c + 100000) (by omega)]
      constructor
      · rintro (rfl | ⟨⟨k, rfl⟩, hx⟩)
        · exact ⟨⟨0, by omega⟩, hle⟩
        · exact ⟨⟨k + 1, by ring⟩, hx⟩
      · rintro ⟨⟨k, rfl⟩, hx⟩
        rcases k with _ | k
        · left; omega
        · right
          exact ⟨⟨k, by ring⟩, hx⟩
    · rw [if_neg hle]
      simp only [List.not_mem_nil, false_iff]
      rintro ⟨⟨k, rfl⟩, hx⟩
      omega

/-- Membership in the issued filter ranges. -/
theorem mem_tickDataWindows (c cur : Nat) (w : Nat × Nat) :
    w ∈ tickDataWindows c cur ↔
      ((∃ k, w.1 = c + 100000 * k) ∧ w.1 ≤ cur) ∧
      w.2 = (w.1 + 100000) % 2 ^ 64 := by
  unfold tickDataWindows
  rw [List.mem_map]
  constructor
  · rintro ⟨f, hf, rfl⟩
    exact ⟨(mem_windowStarts cur f c).mp hf, rfl⟩
  · rintro ⟨hf, hw⟩
    refine ⟨w.1, (mem_windowStarts cur w.1 c).mpr hf, ?_⟩
    cases w
    simp only at hw
    simp [hw]

/-- C8 counterexample: with `creation_block = 0` and `current_block =
100000` the code issues the ranges `(0, 100000)` and `(100000, 200000)`,
so block `100000` is queried by two different windows, refuting the
claimed disjointness. -/
theorem claim_C8_counterexample :
    tickDataWindows 0 100000 = [(0, 100000), (100000, 200000)] ∧
    inWindow (0, 100000) 100000 ∧ inWindow (100000, 200000) 100000 ∧
    ((0, 100000) : Nat × Nat) ≠ (100000, 200000) := by
  refine ⟨?_, by decide, by decide, by decide⟩
  unfold tickDataWindows
  rw [windowStarts_unfold, if_pos (by norm_num),
    windowStarts_unfold, if_pos (by norm_num),
    windowStarts_unfold, if_neg (by norm_num)]
  rfl

/-- The wrap in the source's `to_block = from_block + step as u64` is
reachable at representable inputs: with `creation_block = 2^64 - 50000`
and `current_block = 2^64 - 1` the single issued range has
`to_block = 50000 < from_block`. -/
theorem tickDataWindows_wrap :
    tickDataWindows (2 ^ 64 - 50000) (2 ^ 64 - 1) =
      [(2 ^ 64 - 50000, 50000)] := by
  unfold tickDataWindows
  rw [windowStarts_unfold, if_pos (by norm_num),
    windowStarts_unfold, if_neg (by norm_num)]
  rfl

/-- C8 amended: as long as no issued `to_block` overflows a `u64`
(`current_block + 100000 < 2^64`, true of every real chain), the ranges
issued by `populate_tick_data` all have `to_block = from_block + 100000`,
they start at every multiple of 100000 from the creation block, they
cover every block of `[creation_block, current_block]`, and two distinct
ranges can only share their common boundary block: a block in two
distinct windows is the `to_block` of one and the `from_block` of the
other. -/
theorem claim_C8_amended_windows (creation current : Nat)
    (h : creation ≤ current) (hov : current + 100000 < 2 ^ 64) :
    (creation, creation + 100000) ∈ tickDataWindows creation current ∧
    (∀ w ∈ tickDataWindows creation current, w.2 = w.1 + 100000) ∧
    (∀ b, creation ≤ b → b ≤ current →
      ∃ w ∈ tickDataWindows creation current, inWindow w b) ∧
    (∀ w w' b, w ∈ tickDataWindows creation current →
      w' ∈ tickDataWindows creation current → w ≠ w' →
      inWindow w b → inWindow w' b →
      (b = w.2 ∧ w'.1 = w.2) ∨ (b = w'.2 ∧ w.1 = w'.2)) := by
  refine ⟨?_, ?_, ?_, ?_⟩
  · exact (mem_tickDataWindows creation current _).mpr
      ⟨⟨⟨0, by omega⟩, h⟩, (Nat.mod_eq_of_lt (by omega)).symm⟩
  · intro w hw
    obtain ⟨⟨_, hle⟩, hw2⟩ := (mem_tickDataWindows creation current w).mp hw
    rw [hw2, Nat.mod_eq_of_lt (by omega)]
  · intro b hb1 hb2
    refine ⟨(creation + 100000 * ((b - creation) / 100000),
      creation + 100000 * ((b - creation) / 100000) + 100000), ?_, ?_, ?_⟩
    · exact (mem_tickDataWindows creation current _).mpr
        ⟨⟨⟨_, rfl⟩, by omega⟩, (Nat.mod_eq_of_lt (by omega)).symm⟩
    · show creation + 100000 * ((b - creation) / 100000) ≤ b
      omega
    · show b ≤ creation + 100000 * ((b - creation) / 100000) + 100000
      omega
  · rintro ⟨w1, w2⟩ ⟨w1', w2'⟩ b hw hw' hne hbw hbw'
    obtain ⟨⟨⟨k, hk⟩, hle1⟩, hw2⟩ := (mem_tickDataWindows creation current _).mp hw
    obtain ⟨⟨⟨k', hk'⟩, hle1'⟩, hw2'⟩ := (mem_tickDataWindows creation current _).mp hw'
    dsimp only at hk hk' hw2 hw2' hle1 hle1'
    have hw2n : w2 = w1 + 100000 := by
      rw [hw2, Nat.mod_eq_of_lt (by omega)]
    have hw2n' : w2' = w1' + 100000 := by
      rw [hw2', Nat.mod_eq_of_lt (by omega)]
    obtain ⟨hbl, hbr⟩ := hbw
    obtain ⟨hbl', hbr'⟩ := hbw'
    dsimp only at hbl hbr hbl' hbr'
    have hkk : k ≠ k' := by
      rintro rfl
      exact hne (by rw [Prod.mk.injEq]; constructor <;> omega)
    rcases Nat.lt_or_ge k k' with hlt | hge
    · left
      dsimp only
      omega
    · right
      dsimp only
      omega

/-- Witness for C8 amended at `creation = 0`, `current = 100000`. -/
theorem claim_C8_amended_witness :
    (0 : Nat) ≤ 100000 ∧ (100000 : Nat) + 100000 < 2 ^ 64 ∧
    (((0 : Nat), (100000 : Nat)) ∈ tickDataWindows 0 100000 ∧
    (∀ w ∈ tickDataWindows 0 100000, w.2 = w.1 + 100000) ∧
    (∀ b, 0 ≤ b → b ≤ 100000 → ∃ w ∈ tickDataWindows 0 100000, inWindow w b) ∧
    (∀ w w' b, w ∈ tickDataWindows 0 100000 → w' ∈ tickDataWindows 0 100000 →
      w ≠ w' → inWindow w b → inWindow w' b →
      (b = w.2 ∧ w'.1 = w.2) ∨ (b = w'.2 ∧ w.1 = w'.2))) :=
  ⟨by decide, by decide, claim_C8_amended_windows 0 100000 (by decide) (by decide)⟩


/-! ### Claim C5 -/

/-- C5 (code bug): on a log carrying the Burn event signature whose data
field fails ABI decoding (here: empty data), `sync_from_log` panics via the
`expect` in `decode_burn_log` instead of returning the failure as an
`EventLogError`; the second conjunct shows that the ABI decoder did fail
with a returnable decode error on this input. -/
theorem claim_C5_decode_failure_panics :
    sync_from_log (emptyPool 1) badBurnLog = .error .panicked ∧
    abiDecodeWords 3 badBurnLog.data = .error .abiDecodeFailed :=
  ⟨rfl, rfl⟩


/-! ### Arithmetic of the ghost bookkeeping -/

theorem minted_cons (e : Event) (es : List Event) (l u : Int) :
    minted (e :: es) l u = pairDelta e l u + minted es l u := by
  simp [minted]

theorem minted_append (es es' : List Event) (l u : Int) :
    minted (es ++ es') l u = minted es l u + minted es' l u := by
  unfold minted
  rw [List.map_append, List.sum_append]

theorem minted_singleton (e : Event) (l u : Int) :
    minted [e] l u = pairDelta e l u := by
  simp [minted]

theorem lowerAcc_cons (e : Event) (es : List Event) (t : Int) :
    lowerAcc (e :: es) t =
      (if e.lo = t then e.signedAmount else 0) + lowerAcc es t := by
  simp [lowerAcc]

theorem lowerAcc_append (es es' : List Event) (t : Int) :
    lowerAcc (es ++ es') t = lowerAcc es t + lowerAcc es' t := by
  unfold lowerAcc
  rw [List.map_append, List.sum_append]

theorem lowerAcc_singleton (e : Event) (t : Int) :
    lowerAcc [e] t = if e.lo = t then e.signedAmount else 0 := by
  simp [lowerAcc]

theorem upperAcc_cons (e : Event) (es : List Event) (t : Int) :
    upperAcc (e :: es) t =
      (if e.hi = t then e.signedAmount else 0) + upperAcc es t := by
  simp [upperAcc]

theorem upperAcc_append (es es' : List Event) (t : Int) :
    upperAcc (es ++ es') t = upperAcc es t + upperAcc es' t := by
  unfold upperAcc
  rw [List.map_append, List.sum_append]

theorem upperAcc_singleton (e : Event) (t : Int) :
    upperAcc [e] t = if e.hi = t then e.signedAmount else 0 := by
  simp [upperAcc]

theorem totalMinted_append (es es' : List Event) :
    totalMinted (es ++ es') = totalMinted es + totalMinted es' := by
  induction es with
  | nil => simp [totalMinted]
  | cons e rest ih => cases e <;> simp [totalMinted, ih] <;> omega

theorem validAux_append (es es' done : List Event) :
    validAux done (es ++ es') =
      (validAux done es && validAux (done ++ es) es') := by
  induction es generalizing done with
  | nil => simp [validAux]
  | cons e rest ih =>
    show (stepOK done e && validAux (done ++ [e]) (rest ++ es')) = _
    rw [ih (done ++ [e]), ← Bool.and_assoc]
    have hl : done ++ [e] ++ rest = done ++ e :: rest := by simp
    rw [hl]
    rfl

theorem valid_append_iff (es : List Event) (e : Event) :
    Valid (es ++ [e]) ↔ Valid es ∧ stepOK es e = true := by
  unfold Valid
  rw [validAux_append]
  simp [validAux]

theorem valid_take (es : List Event) (hv : Valid es) (i : Nat) :
    Valid (es.take i) := by
  unfold Valid at *
  have h := validAux_append (es.take i) (es.drop i) []
  rw [List.take_append_drop] at h
  rw [h, Bool.and_eq_true] at hv
  exact hv.1

theorem totalMinted_take_le (es : List Event) (i : Nat) :
    totalMinted (es.take i) ≤ totalMinted es := by
  conv_rhs => rw [← List.take_append_drop i es]
  rw [totalMinted_append]
  omega

theorem minted_nonneg_aux : ∀ (es done : List Event),
    validAux done es = true → (∀ l u, 0 ≤ minted done l u) →
    ∀ l u, 0 ≤ minted (done ++ es) l u := by
  intro es
  induction es with
  | nil =>
    intro done _ hd l u
    simpa using hd l u
  | cons e rest ih =>
    intro done hv hd l u
    rw [show done ++ e :: rest = (done ++ [e]) ++ rest by simp]
    simp only [validAux, Bool.and_eq_true] at hv
    obtain ⟨h1, h2⟩ := hv
    refine ih (done ++ [e]) h2 ?_ l u
    intro l u
    rw [minted_append, minted_singleton]
    cases e with
    | mint l0 u0 a =>
      have := hd l u
      unfold pairDelta
      dsimp only [Event.lo, Event.hi, Event.signedAmount]
      split <;> positivity
    | burn l0 u0 a =>
      unfold stepOK at h1
      rw [decide_eq_true_eq] at h1
      unfold pairDelta
      dsimp only [Event.lo, Event.hi, Event.signedAmount]
      by_cases hp : l0 = l ∧ u0 = u
      · rw [if_pos hp]
        obtain ⟨rfl, rfl⟩ := hp
        omega
      · rw [if_neg hp]
        have := hd l u
        omega

theorem minted_nonneg (es : List Event) (hv : Valid es) (l u : Int) :
    0 ≤ minted es l u := by
  have h := minted_nonneg_aux es [] hv (by intro l u; simp [minted])
  simpa using h l u

theorem mem_uppersOf (es : List Event) (e : Event) (he : e ∈ es) :
    e.hi ∈ uppersOf es := by
  unfold uppersOf
  rw [List.mem_toFinset, List.mem_map]
  exact ⟨e, he, rfl⟩

theorem mem_lowersOf (es : List Event) (e : Event) (he : e ∈ es) :
    e.lo ∈ lowersOf es := by
  unfold lowersOf
  rw [List.mem_toFinset, List.mem_map]
  exact ⟨e, he, rfl⟩

theorem minted_eq_zero_of_hi_not_mem (es : List Event) (l u : Int)
    (h : u ∉ uppersOf es) : minted es l u = 0 := by
  induction es with
  | nil => simp [minted]
  | cons e rest ih =>
    have h1 : e.hi ≠ u := fun hh => h (hh ▸ mem_uppersOf (e :: rest) e (List.mem_cons_self e rest))
    have h2 : u ∉ uppersOf rest := by
      intro hh
      apply h
      unfold uppersOf at hh ⊢
      rw [List.mem_toFinset] at hh ⊢
      rw [List.map_cons]
      exact List.mem_cons_of_mem _ hh
    rw [minted_cons, ih h2]
    unfold pairDelta
    rw [if_neg (by tauto)]
    omega

theorem minted_eq_zero_of_lo_not_mem (es : List Event) (l u : Int)
    (h : l ∉ lowersOf es) : minted es l u = 0 := by
  induction es with
  | nil => simp [minted]
  | cons e rest ih =>
    have h1 : e.lo ≠ l := fun hh => h (hh ▸ mem_lowersOf (e :: rest) e (List.mem_cons_self e rest))
    have h2 : l ∉ lowersOf rest := by
      intro hh
      apply h
      unfold lowersOf at hh ⊢
      rw [List.mem_toFinset] at hh ⊢
      rw [List.map_cons]
      exact List.mem_cons_of_mem _ hh
    rw [minted_cons, ih h2]
    unfold pairDelta
    rw [if_neg (by tauto)]
    omega

theorem sum_pairDelta_lower (e : Event) (t : Int) (U : Finset Int)
    (he : e.hi ∈ U) :
    U.sum (fun u => pairDelta e t u) = if e.lo = t then e.signedAmount else 0 := by
  by_cases hlo : e.lo = t
  · rw [if_pos hlo]
    have h1 : ∀ u ∈ U, pairDelta e t u = if e.hi = u then e.signedAmount else 0 := by
      intro u _
      unfold pairDelta
      by_cases hh : e.hi = u
      · rw [if_pos ⟨hlo, hh⟩, if_pos hh]
      · rw [if_neg (by tauto), if_neg hh]
    rw [Finset.sum_congr rfl h1,
      Finset.sum_ite_eq U e.hi (fun _ => e.signedAmount), if_pos he]
  · rw [if_neg hlo, Finset.sum_eq_zero]
    intro u _
    unfold pairDelta
    rw [if_neg (by tauto)]

theorem sum_pairDelta_upper (e : Event) (t : Int) (L : Finset Int)
    (he : e.lo ∈ L) :
    L.sum (fun l => pairDelta e l t) = if e.hi = t then e.signedAmount else 0 := by
  by_cases hhi : e.hi = t
  · rw [if_pos hhi]
    have h1 : ∀ l ∈ L, pairDelta e l t = if e.lo = l then e.signedAmount else 0 := by
      intro l _
      unfold pairDelta
      by_cases hh : e.lo = l
      · rw [if_pos ⟨hh, hhi⟩, if_pos hh]
      · rw [if_neg (by tauto), if_neg hh]
    rw [Finset.sum_congr rfl h1,
      Finset.sum_ite_eq L e.lo (fun _ => e.signedAmount), if_pos he]
  · rw [if_neg hhi, Finset.sum_eq_zero]
    intro l _
    unfold pairDelta
    rw [if_neg (by tauto)]

theorem lowerAcc_eq_sum (es : List Event) (t : Int) (U : Finset Int)
    (hU : ∀ e ∈ es, e.hi ∈ U) :
    lowerAcc es t = U.sum (fun u => minted es t u) := by
  induction es with
  | nil => simp [lowerAcc, minted]
  | cons e rest ih =>
    have hU' : ∀ e' ∈ rest, e'.hi ∈ U := fun e' he' => hU e' (List.mem_cons_of_mem _ he')
    have he : e.hi ∈ U := hU e (List.mem_cons_self e rest)
    have hsplit : U.sum (fun u => minted (e :: rest) t u)
        = U.sum (fun u => pairDelta e t u) + U.sum (fun u => minted rest t u) := by
      rw [← Finset.sum_add_distrib]
      exact Finset.sum_congr rfl (fun u _ => minted_cons e rest t u)
    rw [lowerAcc_cons, ih hU', hsplit, sum_pairDelta_lower e t U he]

theorem upperAcc_eq_sum (es : List Event) (t : Int) (L : Finset Int)
    (hL : ∀ e ∈ es, e.lo ∈ L) :
    upperAcc es t = L.sum (fun l => minted es l t) := by
  induction es with
  | nil => simp [upperAcc, minted]
  | cons e rest ih =>
    have hL' : ∀ e' ∈ rest, e'.lo ∈ L := fun e' he' => hL e' (List.mem_cons_of_mem _ he')
    have he : e.lo ∈ L := hL e (List.mem_cons_self e rest)
    have hsplit : L.sum (fun l => minted (e :: rest) l t)
        = L.sum (fun l => pairDelta e l t) + L.sum (fun l => minted rest l t) := by
      rw [← Finset.sum_add_distrib]
      exact Finset.sum_congr rfl (fun l _ => minted_cons e rest l t)
    rw [upperAcc_cons, ih hL', hsplit, sum_pairDelta_upper e t L he]


theorem lowerAcc_nonneg (es : List Event) (t : Int) (hv : Valid es) :
    0 ≤ lowerAcc es t := by
  rw [lowerAcc_eq_sum es t (uppersOf es) (fun e he => mem_uppersOf es e he)]
  exact Finset.sum_nonneg (fun u _ => minted_nonneg es hv t u)

theorem upperAcc_nonneg (es : List Event) (t : Int) (hv : Valid es) :
    0 ≤ upperAcc es t := by
  rw [upperAcc_eq_sum es t (lowersOf es) (fun e he => mem_lowersOf es e he)]
  exact Finset.sum_nonneg (fun l _ => minted_nonneg es hv l t)

theorem minted_le_lowerAcc (es : List Event) (l u : Int) (hv : Valid es) :
    minted es l u ≤ lowerAcc es l := by
  by_cases hu : u ∈ uppersOf es
  · rw [lowerAcc_eq_sum es l (uppersOf es) (fun e he => mem_uppersOf es e he)]
    exact Finset.single_le_sum (fun i _ => minted_nonneg es hv l i) hu
  · rw [minted_eq_zero_of_hi_not_mem es l u hu]
    exact lowerAcc_nonneg es l hv

theorem minted_le_upperAcc (es : List Event) (l u : Int) (hv : Valid es) :
    minted es l u ≤ upperAcc es u := by
  by_cases hl : l ∈ lowersOf es
  · rw [upperAcc_eq_sum es u (lowersOf es) (fun e he => mem_lowersOf es e he)]
    exact Finset.single_le_sum (fun i _ => minted_nonneg es hv i u) hl
  · rw [minted_eq_zero_of_lo_not_mem es l u hl]
    exact upperAcc_nonneg es u hv

theorem lowerAcc_le_total (es : List Event) (t : Int) :
    lowerAcc es t ≤ (totalMinted es : Int) := by
  induction es with
  | nil => simp [lowerAcc, totalMinted]
  | cons e rest ih =>
    rw [lowerAcc_cons]
    cases e with
    | mint l0 u0 a =>
      dsimp only [Event.lo, Event.signedAmount, totalMinted]
      split <;> push_cast <;> omega
    | burn l0 u0 a =>
      dsimp only [Event.lo, Event.signedAmount, totalMinted]
      split <;> omega

theorem upperAcc_le_total (es : List Event) (t : Int) :
    upperAcc es t ≤ (totalMinted es : Int) := by
  induction es with
  | nil => simp [upperAcc, totalMinted]
  | cons e rest ih =>
    rw [upperAcc_cons]
    cases e with
    | mint l0 u0 a =>
      dsimp only [Event.hi, Event.signedAmount, totalMinted]
      split <;> push_cast <;> omega
    | burn l0 u0 a =>
      dsimp only [Event.hi, Event.signedAmount, totalMinted]
      split <;> omega

theorem lowerAcc_eq_zero_of_not_mem (es : List Event) (t : Int)
    (h : t ∉ lowersOf es) : lowerAcc es t = 0 := by
  induction es with
  | nil => simp [lowerAcc]
  | cons e rest ih =>
    have h1 : e.lo ≠ t := fun hh => h (hh ▸ mem_lowersOf (e :: rest) e (List.mem_cons_self e rest))
    have h2 : t ∉ lowersOf rest := by
      intro hh
      apply h
      unfold lowersOf at hh ⊢
      rw [List.mem_toFinset] at hh ⊢
      rw [List.map_cons]
      exact List.mem_cons_of_mem _ hh
    rw [lowerAcc_cons, ih h2, if_neg h1]
    omega

theorem upperAcc_eq_zero_of_not_mem (es : List Event) (t : Int)
    (h : t ∉ uppersOf es) : upperAcc es t = 0 := by
  induction es with
  | nil => simp [upperAcc]
  | cons e rest ih =>
    have h1 : e.hi ≠ t := fun hh => h (hh ▸ mem_uppersOf (e :: rest) e (List.mem_cons_self e rest))
    have h2 : t ∉ uppersOf rest := by
      intro hh
      apply h
      unfold uppersOf at hh ⊢
      rw [List.mem_toFinset] at hh ⊢
      rw [List.map_cons]
      exact List.mem_cons_of_mem _ hh
    rw [upperAcc_cons, ih h2, if_neg h1]
    omega

theorem sum_lowerAcc (es : List Event) (T : Finset Int)
    (hT : ∀ e ∈ es, e.lo ∈ T) :
    T.sum (fun t => lowerAcc es t) = (es.map Event.signedAmount).sum := by
  induction es with
  | nil => simp [lowerAcc]
  | cons e rest ih =>
    have hT' : ∀ e' ∈ rest, e'.lo ∈ T := fun e' he' => hT e' (List.mem_cons_of_mem _ he')
    have he : e.lo ∈ T := hT e (List.mem_cons_self e rest)
    have hsplit : T.sum (fun t => lowerAcc (e :: rest) t)
        = T.sum (fun t => if e.lo = t then e.signedAmount else 0)
          + T.sum (fun t => lowerAcc rest t) := by
      rw [← Finset.sum_add_distrib]
      exact Finset.sum_congr rfl (fun t _ => lowerAcc_cons e rest t)
    rw [hsplit, ih hT',
      Finset.sum_ite_eq T e.lo (fun _ => e.signedAmount), if_pos he]
    simp

theorem sum_upperAcc (es : List Event) (T : Finset Int)
    (hT : ∀ e ∈ es, e.hi ∈ T) :
    T.sum (fun t => upperAcc es t) = (es.map Event.signedAmount).sum := by
  induction es with
  | nil => simp [upperAcc]
  | cons e rest ih =>
    have hT' : ∀ e' ∈ rest, e'.hi ∈ T := fun e' he' => hT e' (List.mem_cons_of_mem _ he')
    have he : e.hi ∈ T := hT e (List.mem_cons_self e rest)
    have hsplit : T.sum (fun t => upperAcc (e :: rest) t)
        = T.sum (fun t => if e.hi = t then e.signedAmount else 0)
          + T.sum (fun t => upperAcc rest t) := by
      rw [← Finset.sum_add_distrib]
      exact Finset.sum_congr rfl (fun t _ => upperAcc_cons e rest t)
    rw [hsplit, ih hT',
      Finset.sum_ite_eq T e.hi (fun _ => e.signedAmount), if_pos he]
    simp

/-- Whenever the ticks-map invariant holds for a valid sequence, the
`liquidity_net` entries of the map sum to zero. -/
theorem tickNetSum_eq_zero_of_inv (es : List Event) (p : UniswapV3Pool)
    (hv : Valid es) (hinv : TicksInv es p) : tickNetSum p = 0 := by
  obtain ⟨hmem, hval⟩ := hinv
  have hsub : p.ticks.keys ⊆ lowersOf es ∪ uppersOf es := by
    intro t ht
    by_contra hout
    rw [Finset.mem_union] at hout
    push_neg at hout
    have h1 := lowerAcc_eq_zero_of_not_mem es t hout.1
    have h2 := upperAcc_eq_zero_of_not_mem es t hout.2
    have h3 := (hmem t).mp ht
    unfold grossSpec at h3
    omega
  have hzero : ∀ t ∈ lowersOf es ∪ uppersOf es, t ∉ p.ticks.keys →
      netSpec es t = 0 := by
    intro t _ ht
    have h3 : ¬grossSpec es t ≠ 0 := fun hh => ht ((hmem t).mpr hh)
    have h4 := lowerAcc_nonneg es t hv
    have h5 := upperAcc_nonneg es t hv
    unfold grossSpec at h3
    unfold netSpec
    omega
  unfold tickNetSum
  rw [Finset.sum_congr rfl (fun t ht => (hval t ht).2)]
  rw [Finset.sum_subset hsub hzero]
  have hL := sum_lowerAcc es (lowersOf es ∪ uppersOf es)
    (fun e he => Finset.mem_union_left _ (mem_lowersOf es e he))
  have hU := sum_upperAcc es (lowersOf es ∪ uppersOf es)
    (fun e he => Finset.mem_union_right _ (mem_uppersOf es e he))
  unfold netSpec
  rw [Finset.sum_sub_distrib, hL, hU]
  omega


/-! ### Exact characterization of `update_tick` -/

theorem bne_zero_iff_xor (a b : Nat) :
    ((a == 0) != (b == 0)) = true ↔ Xor' (a = 0) (b = 0) := by
  by_cases h1 : a = 0 <;> by_cases h2 : b = 0 <;> simp [h1, h2, Xor']

/-- The flipped flag returned by `update_tick`. -/
theorem update_tick_fst_eq (p : UniswapV3Pool) (t d : Int) (up : Bool) :
    (update_tick p t d up).1 =
      ((u128AddI128 ((p.ticks.get? t).getD Info.zero).liquidity_gross d == 0) !=
        (((p.ticks.get? t).getD Info.zero).liquidity_gross == 0)) := by
  unfold update_tick
  cases h : p.ticks.get? t with
  | none => simp [h, Info.zero]
  | some info => simp [h]

/-- Closed form of the ticks map produced by `update_tick`: a single
insertion of the updated entry. -/
theorem update_tick_snd_ticks (p : UniswapV3Pool) (t d : Int) (up : Bool) :
    (update_tick p t d up).2.ticks =
      p.ticks.insert t
        { liquidity_gross :=
            u128AddI128 ((p.ticks.get? t).getD Info.zero).liquidity_gross d
          liquidity_net :=
            if up then ws128 (((p.ticks.get? t).getD Info.zero).liquidity_net - d)
            else ws128 (((p.ticks.get? t).getD Info.zero).liquidity_net + d)
          initialized :=
            if ((p.ticks.get? t).getD Info.zero).liquidity_gross = 0 then true
            else ((p.ticks.get? t).getD Info.zero).initialized } := by
  unfold update_tick
  cases h : p.ticks.get? t with
  | none => simp [h, Info.zero]
  | some info =>
    simp only [h, Option.getD_some]
    by_cases hg : info.liquidity_gross = 0 <;> simp [hg]

/-- The key set of `update_tick` unconditionally gains the tick. -/
theorem update_tick_keys (p : UniswapV3Pool) (t d : Int) (up : Bool) :
    (update_tick p t d up).2.ticks.keys = Insert.insert t p.ticks.keys := by
  rw [update_tick_snd_ticks]
  rfl

/-- Entries at other ticks are untouched by `update_tick`. -/
theorem update_tick_val_ne (p : UniswapV3Pool) (t d : Int) (up : Bool)
    (t2 : Int) (h : t2 ≠ t) :
    (update_tick p t d up).2.ticks.val t2 = p.ticks.val t2 := by
  rw [update_tick_snd_ticks]
  exact HMap.val_insert_ne _ _ _ _ h

/-- Behaviour of `update_tick` under exact (non-wrapping) arithmetic: given
ghost gross and net values `g`, `n` consistent with the stored entry and
in-range bounds, the call flips exactly when the gross value crosses zero,
inserts the tick with gross `g + d` and net moved by `±d`, and leaves every
other entry alone. -/
theorem update_tick_exact (p : UniswapV3Pool) (t d : Int) (up : Bool)
    (g n : Int)
    (hmem : t ∈ p.ticks.keys ↔ g ≠ 0)
    (hgv : t ∈ p.ticks.keys → ((p.ticks.val t).liquidity_gross : Int) = g)
    (hnv : t ∈ p.ticks.keys → (p.ticks.val t).liquidity_net = n)
    (hn0 : g = 0 → n = 0)
    (hd : -(2 ^ 127) ≤ d ∧ d < 2 ^ 127)
    (hgd : 0 ≤ g + d ∧ g + d < 2 ^ 128)
    (hnd : -(2 ^ 127) ≤ (if up then n - d else n + d) ∧
      (if up then n - d else n + d) < 2 ^ 127) :
    ((update_tick p t d up).1 = true ↔ Xor' (g + d = 0) (g = 0)) ∧
    (update_tick p t d up).2.ticks.keys = Insert.insert t p.ticks.keys ∧
    (((update_tick p t d up).2.ticks.val t).liquidity_gross : Int) = g + d ∧
    ((update_tick p t d up).2.ticks.val t).liquidity_net =
      (if up then n - d else n + d) ∧
    (∀ t2, t2 ≠ t → (update_tick p t d up).2.ticks.val t2 = p.ticks.val t2) := by
  have hbefore : (((p.ticks.get? t).getD Info.zero).liquidity_gross : Int) = g := by
    unfold HMap.get?
    by_cases hm : t ∈ p.ticks.keys
    · simp only [hm, if_true, Option.getD_some]
      exact hgv hm
    · have hg0 : g = 0 := by
        by_contra hne
        exact hm (hmem.mpr hne)
      simp [hm, Info.zero, hg0]
  have hnbefore : ((p.ticks.get? t).getD Info.zero).liquidity_net = n := by
    unfold HMap.get?
    by_cases hm : t ∈ p.ticks.keys
    · simp only [hm, if_true, Option.getD_some]
      exact hnv hm
    · have hg0 : g = 0 := by
        by_contra hne
        exact hm (hmem.mpr hne)
      simp [hm, Info.zero, hn0 hg0]
  have hafter : ((u128AddI128 ((p.ticks.get? t).getD Info.zero).liquidity_gross d : Nat) : Int)
      = g + d := by
    rw [u128AddI128_exact _ d hd.1 hd.2 (by omega) (by omega), hbefore]
  have e1 : (u128AddI128 ((p.ticks.get? t).getD Info.zero).liquidity_gross d = 0)
      ↔ (g + d = 0) := by
    omega
  have e2 : (((p.ticks.get? t).getD Info.zero).liquidity_gross = 0) ↔ (g = 0) := by
    omega
  refine ⟨?_, ?_, ?_, ?_, ?_⟩
  · rw [update_tick_fst_eq, bne_zero_iff_xor, e1, e2]
  · rw [update_tick_snd_ticks]
    exact HMap.keys_insert _ _ _
  · rw [update_tick_snd_ticks, HMap.val_insert_same]
    exact hafter
  · rw [update_tick_snd_ticks, HMap.val_insert_same]
    dsimp only
    rw [hnbefore]
    cases up with
    | false =>
      have h1 := hnd.1
      have h2 := hnd.2
      simp only [Bool.false_eq_true, if_false] at h1 h2 ⊢
      exact ws128_eq_self (n + d) h1 h2
    | true =>
      have h1 := hnd.1
      have h2 := hnd.2
      simp only [if_true] at h1 h2 ⊢
      exact ws128_eq_self (n - d) h1 h2
  · intro t2 ht2
    rw [update_tick_snd_ticks]
    exact HMap.val_insert_ne _ _ _ _ ht2


/-! ### Effect of the mutators on the bitmap and map layers -/

theorem bool_eq_decide {b : Bool} {P : Prop} [Decidable P]
    (h : b = true ↔ P) : b = decide P := by
  cases b with
  | true => simp [h.mp rfl]
  | false =>
    have : ¬P := fun hp => by simpa using h.mpr hp
    simp [this]

theorem ws128_zero : ws128 0 = 0 := by
  unfold ws128
  norm_num

/-- The signed amount of an event is zero exactly when its delta is. -/
theorem event_delta_zero (e : Event) (hs : e.signedAmount = 0) : e.delta = 0 := by
  cases e with
  | mint l u a =>
    simp only [Event.signedAmount] at hs
    simp only [Event.delta]
    rw [hs, ws128_zero]
  | burn l u a =>
    simp only [Event.signedAmount] at hs
    simp only [Event.delta]
    have ha : (a : Int) = 0 := by omega
    rw [ha, ws128_zero, neg_zero, ws128_zero]

theorem modify_position_zero (p : UniswapV3Pool) (l u : Int) :
    modify_position p l u 0 = p := rfl

@[simp]
theorem modify_position_ticks (p : UniswapV3Pool) (l u d : Int) :
    (modify_position p l u d).ticks = (update_position p l u d).ticks := by
  unfold modify_position
  dsimp only
  repeat' split
  all_goals rfl

@[simp]
theorem modify_position_tick_bitmap (p : UniswapV3Pool) (l u d : Int) :
    (modify_position p l u d).tick_bitmap = (update_position p l u d).tick_bitmap := by
  unfold modify_position
  dsimp only
  repeat' split
  all_goals rfl

/-- The ticks map produced by `update_position` for a nonzero delta: the
two `update_tick` insertions followed by the conditional removals (the
bitmap flips do not touch the ticks map). -/
theorem update_position_ticks_eq (p : UniswapV3Pool) (l u d : Int) (hd : d ≠ 0) :
    (update_position p l u d).ticks =
      (if d < 0 then
        (let m2 := if (update_tick p l d false).1
          then ((update_tick (update_tick p l d false).2 u d true).2.ticks.remove l)
          else (update_tick (update_tick p l d false).2 u d true).2.ticks
         if (update_tick (update_tick p l d false).2 u d true).1
          then m2.remove u else m2)
       else (update_tick (update_tick p l d false).2 u d true).2.ticks) := by
  unfold update_position
  dsimp only
  rw [if_pos hd]
  by_cases hneg : d < 0 <;>
    by_cases h1 : (update_tick p l d false).1 <;>
      by_cases h2 : (update_tick (update_tick p l d false).2 u d true).1 <;>
        simp [hneg, h1, h2]

/-- The bitmap produced by `update_position` for a nonzero delta: the two
conditional flips applied to the bitmap left by the `update_tick` calls
(which do not touch it); the removals do not touch the bitmap either. -/
theorem update_position_bitmap_eq (p : UniswapV3Pool) (l u d : Int) (hd : d ≠ 0) :
    (update_position p l u d).tick_bitmap =
      (let p3 := if (update_tick p l d false).1
        then flip_tick (update_tick (update_tick p l d false).2 u d true).2 l p.tick_spacing
        else (update_tick (update_tick p l d false).2 u d true).2
       if (update_tick (update_tick p l d false).2 u d true).1
        then (flip_tick p3 u p.tick_spacing).tick_bitmap else p3.tick_bitmap) := by
  unfold update_position
  dsimp only
  rw [if_pos hd]
  by_cases hneg : d < 0 <;>
    by_cases h1 : (update_tick p l d false).1 <;>
      by_cases h2 : (update_tick (update_tick p l d false).2 u d true).1 <;>
        simp [hneg, h1, h2]

/-- One `flip_tick` toggles exactly the bit at `position (t / s)`. -/
theorem flip_tick_bitAt (p : UniswapV3Pool) (t s : Int) (c : Int) :
    bitAtCompressed (flip_tick p t s) c =
      ((bitAtCompressed p c).xor (decide (position (t.tdiv s) = position c))) := by
  have hold : p.tick_bitmap.getD (position (t.tdiv s)).1 0 =
      (match p.tick_bitmap.get? (position (t.tdiv s)).1 with
        | some word => word
        | none => 0) := by
    unfold HMap.getD HMap.get?
    by_cases hm : (position (t.tdiv s)).1 ∈ p.tick_bitmap.keys <;> simp [hm]
  have hbm : (flip_tick p t s).tick_bitmap.getD (position c).1 0 =
      (if (position c).1 = (position (t.tdiv s)).1
        then p.tick_bitmap.getD (position c).1 0 ^^^ (1 <<< (position (t.tdiv s)).2)
        else p.tick_bitmap.getD (position c).1 0) := by
    unfold flip_tick
    dsimp only
    by_cases hw : (position c).1 = (position (t.tdiv s)).1
    · rw [if_pos hw, hw]
      cases hg : p.tick_bitmap.get? (position (t.tdiv s)).1 with
      | none =>
        dsimp only
        rw [HMap.getD_insert_same, hold, hg, Nat.zero_xor]
      | some word =>
        dsimp only
        rw [HMap.getD_insert_same, hold, hg]
    · rw [if_neg hw]
      cases hg : p.tick_bitmap.get? (position (t.tdiv s)).1 with
      | none =>
        dsimp only
        rw [HMap.getD_insert_ne _ _ _ _ _ hw]
      | some word =>
        dsimp only
        rw [HMap.getD_insert_ne _ _ _ _ _ hw]
  unfold bitAtCompressed
  rw [hbm]
  by_cases hw : (position c).1 = (position (t.tdiv s)).1
  · rw [if_pos hw, Nat.one_shiftLeft, Nat.testBit_xor, Nat.testBit_two_pow]
    have hdec : decide (position (t.tdiv s) = position c)
        = decide ((position (t.tdiv s)).2 = (position c).2) := by
      rw [decide_eq_decide]
      rw [Prod.ext_iff]
      constructor
      · exact fun h => h.2
      · exact fun h => ⟨hw.symm, h⟩
    rw [hdec]
  · rw [if_neg hw]
    have hne : ¬(position (t.tdiv s) = position c) := fun h => hw (by rw [h])
    rw [decide_eq_false hne, Bool.xor_false]


/-! ### The replay induction step -/

theorem grossSpec_append_one (es : List Event) (e : Event) (t : Int) :
    grossSpec (es ++ [e]) t = grossSpec es t
      + (if e.lo = t then e.signedAmount else 0)
      + (if e.hi = t then e.signedAmount else 0) := by
  unfold grossSpec
  rw [lowerAcc_append, upperAcc_append, lowerAcc_singleton, upperAcc_singleton]
  ring

theorem netSpec_append_one (es : List Event) (e : Event) (t : Int) :
    netSpec (es ++ [e]) t = netSpec es t
      + (if e.lo = t then e.signedAmount else 0)
      - (if e.hi = t then e.signedAmount else 0) := by
  unfold netSpec
  rw [lowerAcc_append, upperAcc_append, lowerAcc_singleton, upperAcc_singleton]
  ring

/-- `bitAtCompressed` only reads the `tick_bitmap` field. -/
theorem bitAt_congr (p q : UniswapV3Pool) (h : p.tick_bitmap = q.tick_bitmap) (c : Int) :
    bitAtCompressed p c = bitAtCompressed q c := by
  unfold bitAtCompressed
  rw [h]

/-- Effect of one replay step: the ticks invariant is carried from `es` to
`es ++ [e]`, and the bitmap changes by exactly the two conditional bit
toggles of `update_position` (each guarded by the corresponding flip). -/
theorem replay_step_ticks (es : List Event) (e : Event) (p : UniswapV3Pool)
    (hinv : TicksInv es p) (hves : Valid es) (hstep : stepOK es e = true)
    (hb : (totalMinted (es ++ [e]) : Int) < 2 ^ 127) :
    TicksInv (es ++ [e]) (applyEvent p e) ∧
    (∀ c : Int, bitAtCompressed (applyEvent p e) c =
      (((bitAtCompressed p c).xor
        ((decide (Xor' (grossSpec es e.lo + e.signedAmount = 0)
            (grossSpec es e.lo = 0))) &&
         (decide (position (e.lo.tdiv p.tick_spacing) = position c)))).xor
        ((decide (Xor' (grossSpec (es ++ [e]) e.hi = 0)
            (grossSpec (es ++ [e]) e.hi - e.signedAmount = 0))) &&
         (decide (position (e.hi.tdiv p.tick_spacing) = position c))))) := by
  obtain ⟨hmem, hval⟩ := hinv
  by_cases hs0 : e.signedAmount = 0
  · have happ : applyEvent p e = p := by
      unfold applyEvent
      rw [event_delta_zero e hs0, modify_position_zero]
    rw [happ]
    refine ⟨⟨?_, ?_⟩, ?_⟩
    · intro t
      rw [grossSpec_append_one, hs0]
      simpa using hmem t
    · intro t ht
      have h1 := hval t ht
      rw [grossSpec_append_one, netSpec_append_one, hs0]
      simpa using h1
    · intro c
      have hx1 : ¬Xor' (grossSpec es e.lo + e.signedAmount = 0)
          (grossSpec es e.lo = 0) := by
        rw [hs0, add_zero]
        exact fun hx => hx.elim (fun h => h.2 h.1) (fun h => h.2 h.1)
      have hx2 : ¬Xor' (grossSpec (es ++ [e]) e.hi = 0)
          (grossSpec (es ++ [e]) e.hi - e.signedAmount = 0) := by
        rw [hs0, sub_zero]
        exact fun hx => hx.elim (fun h => h.2 h.1) (fun h => h.2 h.1)
      rw [decide_eq_false hx1, decide_eq_false hx2, Bool.false_and,
        Bool.false_and, Bool.xor_false, Bool.xor_false]
  · -- shared arithmetic facts
    have hLlo := lowerAcc_nonneg es e.lo hves
    have hUlo := upperAcc_nonneg es e.lo hves
    have hLhi := lowerAcc_nonneg es e.hi hves
    have hUhi := upperAcc_nonneg es e.hi hves
    have hLlo2 := lowerAcc_le_total es e.lo
    have hUlo2 := upperAcc_le_total es e.lo
    have hLhi2 := lowerAcc_le_total es e.hi
    have hUhi2 := upperAcc_le_total es e.hi
    have htot : (totalMinted es : Int) ≤ (totalMinted (es ++ [e]) : Int) := by
      rw [totalMinted_append]
      push_cast
      omega
    have hstep1 : e.signedAmount < 0 → -(e.signedAmount) ≤ minted es e.lo e.hi := by
      cases e with
      | mint l u a =>
        intro h
        exfalso
        simp only [Event.signedAmount] at h
        omega
      | burn l u a =>
        intro h
        unfold stepOK at hstep
        rw [decide_eq_true_eq] at hstep
        simpa [Event.signedAmount] using hstep
    have hburnL : e.signedAmount < 0 → -(e.signedAmount) ≤ lowerAcc es e.lo :=
      fun h => le_trans (hstep1 h) (minted_le_lowerAcc es e.lo e.hi hves)
    have hburnU : e.signedAmount < 0 → -(e.signedAmount) ≤ upperAcc es e.hi :=
      fun h => le_trans (hstep1 h) (minted_le_upperAcc es e.lo e.hi hves)
    have hmint_total : 0 < e.signedAmount →
        (totalMinted es : Int) + e.signedAmount ≤ (totalMinted (es ++ [e]) : Int) := by
      cases e with
      | mint l u a =>
        intro _
        rw [totalMinted_append]
        simp only [Event.signedAmount, totalMinted]
        push_cast
        omega
      | burn l u a =>
        intro h
        exfalso
        simp only [Event.signedAmount] at h
        omega
    have hs_range : -(2 ^ 127) < e.signedAmount ∧ e.signedAmount < 2 ^ 127 := by
      rcases lt_or_gt_of_ne hs0 with hneg | hpos
      · have h1 := hburnL hneg
        constructor <;> omega
      · have h1 := hmint_total hpos
        constructor <;> omega
    have hGlo : grossSpec es e.lo = lowerAcc es e.lo + upperAcc es e.lo := rfl
    have hNlo : netSpec es e.lo = lowerAcc es e.lo - upperAcc es e.lo := rfl
    have hGhi : grossSpec es e.hi = lowerAcc es e.hi + upperAcc es e.hi := rfl
    have hNhi : netSpec es e.hi = lowerAcc es e.hi - upperAcc es e.hi := rfl
    have hn0 : ∀ t, grossSpec es t = 0 → netSpec es t = 0 := by
      intro t hg
      have h1 := lowerAcc_nonneg es t hves
      have h2 := upperAcc_nonneg es t hves
      unfold grossSpec at hg
      unfold netSpec
      omega
    have hdelta : e.delta = e.signedAmount := by
      cases e with
      | mint l u a =>
        simp only [Event.signedAmount] at hs_range
        simp only [Event.delta, Event.signedAmount]
        exact ws128_eq_self _ (by omega) (by omega)
      | burn l u a =>
        simp only [Event.signedAmount] at hs_range
        simp only [Event.delta, Event.signedAmount]
        rw [ws128_eq_self (a : Int) (by omega) (by omega),
          ws128_eq_self (-(a : Int)) (by omega) (by omega)]
    have hkeys12 : (update_tick (update_tick p e.lo e.signedAmount false).2 e.hi e.signedAmount true).2.ticks.keys
        = Insert.insert e.hi (Insert.insert e.lo p.ticks.keys) := by
      rw [update_tick_keys, update_tick_keys]
    have happ : (applyEvent p e).ticks =
        (if e.signedAmount < 0 then
          (let m2 := if (update_tick p e.lo e.signedAmount false).1
            then ((update_tick (update_tick p e.lo e.signedAmount false).2 e.hi e.signedAmount true).2.ticks.remove e.lo)
            else (update_tick (update_tick p e.lo e.signedAmount false).2 e.hi e.signedAmount true).2.ticks
           if (update_tick (update_tick p e.lo e.signedAmount false).2 e.hi e.signedAmount true).1
            then m2.remove e.hi else m2)
         else (update_tick (update_tick p e.lo e.signedAmount false).2 e.hi e.signedAmount true).2.ticks) := by
      unfold applyEvent
      rw [hdelta, modify_position_ticks,
        update_position_ticks_eq p e.lo e.hi e.signedAmount hs0]
    have hmemF : ∀ t, (t ∈ (applyEvent p e).ticks.keys ↔
        (t ∈ Insert.insert e.hi (Insert.insert e.lo p.ticks.keys) ∧
         ¬(e.signedAmount < 0 ∧ (update_tick p e.lo e.signedAmount false).1 = true ∧ t = e.lo) ∧
         ¬(e.signedAmount < 0 ∧ (update_tick (update_tick p e.lo e.signedAmount false).2 e.hi e.signedAmount true).1 = true ∧ t = e.hi))) := by
      intro t
      rw [happ]
      by_cases hneg : e.signedAmount < 0
      · rw [if_pos hneg]
        show t ∈ (if (update_tick (update_tick p e.lo e.signedAmount false).2 e.hi e.signedAmount true).1
            then (if (update_tick p e.lo e.signedAmount false).1 then (update_tick (update_tick p e.lo e.signedAmount false).2 e.hi e.signedAmount true).2.ticks.remove e.lo else (update_tick (update_tick p e.lo e.signedAmount false).2 e.hi e.signedAmount true).2.ticks).remove e.hi
            else (if (update_tick p e.lo e.signedAmount false).1 then (update_tick (update_tick p e.lo e.signedAmount false).2 e.hi e.signedAmount true).2.ticks.remove e.lo else (update_tick (update_tick p e.lo e.signedAmount false).2 e.hi e.signedAmount true).2.ticks)).keys ↔ _
        by_cases hb1 : (update_tick p e.lo e.signedAmount false).1 = true
        · by_cases hb2 : (update_tick (update_tick p e.lo e.signedAmount false).2 e.hi e.signedAmount true).1 = true
          · rw [if_pos hb2, if_pos hb1, HMap.keys_remove, HMap.keys_remove,
              Finset.mem_erase, Finset.mem_erase, hkeys12]
            simp only [iff_true_intro hneg, iff_true_intro hb1, iff_true_intro hb2,
              true_and]
            exact ⟨fun h => ⟨h.2.2, h.2.1, h.1⟩, fun h => ⟨h.2.2, h.2.1, h.1⟩⟩
          · rw [if_neg hb2, if_pos hb1, HMap.keys_remove, Finset.mem_erase, hkeys12]
            simp only [iff_true_intro hneg, iff_true_intro hb1, iff_false_intro hb2,
              true_and, false_and, and_false, not_false_eq_true, and_true]
            exact ⟨fun h => ⟨h.2, h.1⟩, fun h => ⟨h.2, h.1⟩⟩
        · by_cases hb2 : (update_tick (update_tick p e.lo e.signedAmount false).2 e.hi e.signedAmount true).1 = true
          · rw [if_pos hb2, if_neg hb1, HMap.keys_remove, Finset.mem_erase, hkeys12]
            simp only [iff_true_intro hneg, iff_false_intro hb1, iff_true_intro hb2,
              true_and, false_and, and_false, not_false_eq_true, and_true]
            exact ⟨fun h => ⟨h.2, h.1⟩, fun h => ⟨h.2, h.1⟩⟩
          · rw [if_neg hb2, if_neg hb1, hkeys12]
            simp only [iff_true_intro hneg, iff_false_intro hb1, iff_false_intro hb2,
              true_and, false_and, and_false, not_false_eq_true, and_true]
      · rw [if_neg hneg]
        rw [hkeys12]
        simp only [hneg, false_and, not_false_eq_true, and_true, true_and]
    have hvalF : ∀ t, (applyEvent p e).ticks.val t = (update_tick (update_tick p e.lo e.signedAmount false).2 e.hi e.signedAmount true).2.ticks.val t := by
      intro t
      rw [happ]
      by_cases hneg : e.signedAmount < 0
      · rw [if_pos hneg]
        show (if (update_tick (update_tick p e.lo e.signedAmount false).2 e.hi e.signedAmount true).1
            then (if (update_tick p e.lo e.signedAmount false).1 then (update_tick (update_tick p e.lo e.signedAmount false).2 e.hi e.signedAmount true).2.ticks.remove e.lo else (update_tick (update_tick p e.lo e.signedAmount false).2 e.hi e.signedAmount true).2.ticks).remove e.hi
            else (if (update_tick p e.lo e.signedAmount false).1 then (update_tick (update_tick p e.lo e.signedAmount false).2 e.hi e.signedAmount true).2.ticks.remove e.lo else (update_tick (update_tick p e.lo e.signedAmount false).2 e.hi e.signedAmount true).2.ticks)).val t = _
        by_cases hb1 : (update_tick p e.lo e.signedAmount false).1 = true
        · by_cases hb2 : (update_tick (update_tick p e.lo e.signedAmount false).2 e.hi e.signedAmount true).1 = true
          · rw [if_pos hb2, if_pos hb1]
            rfl
          · rw [if_neg hb2, if_pos hb1]
            rfl
        · by_cases hb2 : (update_tick (update_tick p e.lo e.signedAmount false).2 e.hi e.signedAmount true).1 = true
          · rw [if_pos hb2, if_neg hb1]
            rfl
          · rw [if_neg hb2, if_neg hb1]
      · rw [if_neg hneg]
    have happb : (applyEvent p e).tick_bitmap =
        (if (update_tick (update_tick p e.lo e.signedAmount false).2 e.hi e.signedAmount true).1
          then (flip_tick (if (update_tick p e.lo e.signedAmount false).1
              then flip_tick (update_tick (update_tick p e.lo e.signedAmount false).2 e.hi e.signedAmount true).2 e.lo p.tick_spacing
              else (update_tick (update_tick p e.lo e.signedAmount false).2 e.hi e.signedAmount true).2) e.hi p.tick_spacing).tick_bitmap
          else (if (update_tick p e.lo e.signedAmount false).1
              then flip_tick (update_tick (update_tick p e.lo e.signedAmount false).2 e.hi e.signedAmount true).2 e.lo p.tick_spacing
              else (update_tick (update_tick p e.lo e.signedAmount false).2 e.hi e.signedAmount true).2).tick_bitmap) := by
      unfold applyEvent
      rw [hdelta, modify_position_tick_bitmap]
      exact update_position_bitmap_eq p e.lo e.hi e.signedAmount hs0
    have hbase : ∀ c : Int, bitAtCompressed (update_tick (update_tick p e.lo e.signedAmount false).2 e.hi e.signedAmount true).2 c = bitAtCompressed p c :=
      fun c => bitAt_congr _ _ (by rw [update_tick_tick_bitmap, update_tick_tick_bitmap]) c
    by_cases hlohi : e.lo = e.hi
    · -- the two event ticks coincide
      have hUU : upperAcc es e.hi = upperAcc es e.lo := by rw [← hlohi]
      have hGhieq : grossSpec es e.hi = grossSpec es e.lo := by rw [← hlohi]
      obtain ⟨hfl1, hkeys1, hg1, hn1, hother1⟩ := update_tick_exact p e.lo e.signedAmount false
        (grossSpec es e.lo) (netSpec es e.lo) (hmem e.lo)
        (fun hm => (hval e.lo hm).1) (fun hm => (hval e.lo hm).2) (hn0 e.lo)
        ⟨by omega, by omega⟩
        ⟨by
          rcases lt_or_gt_of_ne hs0 with hneg | hpos
          · have hBL := hburnL hneg
            omega
          · omega,
         by
          rcases lt_or_gt_of_ne hs0 with hneg | hpos
          · omega
          · have hMT := hmint_total hpos
            omega⟩
        ⟨by
          show -(2 ^ 127) ≤ netSpec es e.lo + e.signedAmount
          rcases lt_or_gt_of_ne hs0 with hneg | hpos
          · have hBL := hburnL hneg
            omega
          · omega,
         by
          show netSpec es e.lo + e.signedAmount < 2 ^ 127
          rcases lt_or_gt_of_ne hs0 with hneg | hpos
          · omega
          · have hMT := hmint_total hpos
            omega⟩
      have hn1a : (((update_tick p e.lo e.signedAmount false).2.ticks.val e.lo).liquidity_net)
          = netSpec es e.lo + e.signedAmount := hn1
      have hg2ne : grossSpec es e.lo + e.signedAmount ≠ 0 := by
        rcases lt_or_gt_of_ne hs0 with hneg | hpos
        · have hBL := hburnL hneg
          have hBU := hburnU hneg
          omega
        · omega
      have hmem2 : e.hi ∈ (update_tick p e.lo e.signedAmount false).2.ticks.keys ↔
          grossSpec es e.lo + e.signedAmount ≠ 0 := by
        constructor
        · intro _
          exact hg2ne
        · intro _
          rw [update_tick_keys, ← hlohi]
          exact Finset.mem_insert_self _ _
      obtain ⟨hfl2, hkeys2, hg2, hn2, hother2⟩ := update_tick_exact (update_tick p e.lo e.signedAmount false).2 e.hi e.signedAmount true
        (grossSpec es e.lo + e.signedAmount) (netSpec es e.lo + e.signedAmount) hmem2
        (fun _ => by
          rw [← hlohi]
          exact hg1)
        (fun _ => by
          rw [← hlohi]
          exact hn1a)
        (fun h => absurd h hg2ne)
        ⟨by omega, by omega⟩
        ⟨by
          rcases lt_or_gt_of_ne hs0 with hneg | hpos
          · have hBL := hburnL hneg
            have hBU := hburnU hneg
            omega
          · omega,
         by
          rcases lt_or_gt_of_ne hs0 with hneg | hpos
          · omega
          · have hMT := hmint_total hpos
            omega⟩
        ⟨by
          show -(2 ^ 127) ≤ netSpec es e.lo + e.signedAmount - e.signedAmount
          omega,
         by
          show netSpec es e.lo + e.signedAmount - e.signedAmount < 2 ^ 127
          omega⟩
      have hn2a : (((update_tick (update_tick p e.lo e.signedAmount false).2 e.hi e.signedAmount true).2.ticks.val e.hi).liquidity_net)
          = netSpec es e.lo + e.signedAmount - e.signedAmount := hn2
      have hn2b : (((update_tick (update_tick p e.lo e.signedAmount false).2 e.hi e.signedAmount true).2.ticks.val e.hi).liquidity_net) = netSpec es e.lo := by
        omega
      have hG2hi : grossSpec (es ++ [e]) e.hi
          = grossSpec es e.lo + e.signedAmount + e.signedAmount := by
        rw [grossSpec_append_one, if_pos hlohi, if_pos rfl, hGhieq]
      have hN2hi : netSpec (es ++ [e]) e.hi = netSpec es e.lo := by
        rw [netSpec_append_one, if_pos hlohi, if_pos rfl]
        rw [show netSpec es e.hi = netSpec es e.lo by rw [← hlohi]]
        ring
      have hG2other : ∀ t, t ≠ e.hi → grossSpec (es ++ [e]) t = grossSpec es t := by
        intro t h2
        have h1 : t ≠ e.lo := fun hh => h2 (hh.trans hlohi)
        rw [grossSpec_append_one, if_neg (fun hh => h1 hh.symm),
          if_neg (fun hh => h2 hh.symm)]
        ring
      have hN2other : ∀ t, t ≠ e.hi → netSpec (es ++ [e]) t = netSpec es t := by
        intro t h2
        have h1 : t ≠ e.lo := fun hh => h2 (hh.trans hlohi)
        rw [netSpec_append_one, if_neg (fun hh => h1 hh.symm),
          if_neg (fun hh => h2 hh.symm)]
        ring
      have hGcancel : grossSpec es e.lo + e.signedAmount + e.signedAmount - e.signedAmount
          = grossSpec es e.lo + e.signedAmount := by ring
      refine ⟨⟨?_, ?_⟩, ?_⟩
      · intro t
        by_cases hthi : t = e.hi
        · subst hthi
          rw [hmemF, hG2hi]
          have htriv1 : e.hi ∈ Insert.insert e.hi (Insert.insert e.lo p.ticks.keys) :=
            Finset.mem_insert_self _ _
          simp only [iff_true_intro htriv1, iff_true_intro hlohi.symm,
            eq_self_iff_true, true_and, and_true]
          rw [hfl1, hfl2]
          unfold Xor'
          rcases lt_or_gt_of_ne hs0 with hneg | hpos
          · have hBL := hburnL hneg
            have hBU := hburnU hneg
            omega
          · omega
        · have htlo : t ≠ e.lo := fun hh => hthi (hh.trans hlohi)
          rw [hmemF, hG2other t hthi]
          have h1 : ¬(e.signedAmount < 0 ∧ (update_tick p e.lo e.signedAmount false).1 = true ∧ t = e.lo) :=
            fun hh => htlo hh.2.2
          have h2 : ¬(e.signedAmount < 0 ∧ (update_tick (update_tick p e.lo e.signedAmount false).2 e.hi e.signedAmount true).1 = true ∧ t = e.hi) :=
            fun hh => hthi hh.2.2
          simp only [iff_true_intro h1, iff_true_intro h2, and_true]
          rw [Finset.mem_insert, Finset.mem_insert]
          simp only [htlo, hthi, false_or]
          exact hmem t
      · intro t ht
        rw [hvalF]
        by_cases hthi : t = e.hi
        · subst hthi
          constructor
          · rw [hg2, hG2hi]
          · rw [hn2b, hN2hi]
        · have htlo : t ≠ e.lo := fun hh => hthi (hh.trans hlohi)
          have hmem0 : t ∈ p.ticks.keys := by
            have hh := (hmemF t).mp ht
            have hh1 := hh.1
            rw [Finset.mem_insert, Finset.mem_insert] at hh1
            rcases hh1 with h | h | h
            · exact absurd h hthi
            · exact absurd h htlo
            · exact h
          rw [hother2 t hthi, hother1 t htlo]
          constructor
          · rw [hG2other t hthi]
            exact (hval t hmem0).1
          · rw [hN2other t hthi]
            exact (hval t hmem0).2
      · intro c
        have hbr : Xor' (grossSpec (es ++ [e]) e.hi = 0)
              (grossSpec (es ++ [e]) e.hi - e.signedAmount = 0) ↔
            Xor' (grossSpec es e.lo + e.signedAmount + e.signedAmount = 0)
              (grossSpec es e.lo + e.signedAmount = 0) := by
          rw [hG2hi, hGcancel]
        by_cases hb2 : (update_tick (update_tick p e.lo e.signedAmount false).2 e.hi e.signedAmount true).1 = true
        · by_cases hb1 : (update_tick p e.lo e.signedAmount false).1 = true
          · have hbm : (applyEvent p e).tick_bitmap =
                (flip_tick (flip_tick (update_tick (update_tick p e.lo e.signedAmount false).2 e.hi e.signedAmount true).2 e.lo p.tick_spacing) e.hi p.tick_spacing).tick_bitmap := by
              rw [happb, if_pos hb2, if_pos hb1]
            rw [bitAt_congr (applyEvent p e)
                (flip_tick (flip_tick (update_tick (update_tick p e.lo e.signedAmount false).2 e.hi e.signedAmount true).2 e.lo p.tick_spacing) e.hi p.tick_spacing) hbm c,
              flip_tick_bitAt, flip_tick_bitAt, hbase c,
              decide_eq_true (hfl1.mp hb1), decide_eq_true (hbr.mpr (hfl2.mp hb2)),
              Bool.true_and, Bool.true_and]
          · have hbm : (applyEvent p e).tick_bitmap =
                (flip_tick (update_tick (update_tick p e.lo e.signedAmount false).2 e.hi e.signedAmount true).2 e.hi p.tick_spacing).tick_bitmap := by
              rw [happb, if_pos hb2, if_neg hb1]
            rw [bitAt_congr (applyEvent p e)
                (flip_tick (update_tick (update_tick p e.lo e.signedAmount false).2 e.hi e.signedAmount true).2 e.hi p.tick_spacing) hbm c,
              flip_tick_bitAt, hbase c,
              decide_eq_false (fun hx => hb1 (hfl1.mpr hx)),
              decide_eq_true (hbr.mpr (hfl2.mp hb2)),
              Bool.false_and, Bool.true_and, Bool.xor_false]
        · by_cases hb1 : (update_tick p e.lo e.signedAmount false).1 = true
          · have hbm : (applyEvent p e).tick_bitmap =
                (flip_tick (update_tick (update_tick p e.lo e.signedAmount false).2 e.hi e.signedAmount true).2 e.lo p.tick_spacing).tick_bitmap := by
              rw [happb, if_neg hb2, if_pos hb1]
            rw [bitAt_congr (applyEvent p e)
                (flip_tick (update_tick (update_tick p e.lo e.signedAmount false).2 e.hi e.signedAmount true).2 e.lo p.tick_spacing) hbm c,
              flip_tick_bitAt, hbase c,
              decide_eq_true (hfl1.mp hb1),
              decide_eq_false (fun hx => hb2 (hfl2.mpr (hbr.mp hx))),
              Bool.true_and, Bool.false_and, Bool.xor_false]
          · have hbm : (applyEvent p e).tick_bitmap = (update_tick (update_tick p e.lo e.signedAmount false).2 e.hi e.signedAmount true).2.tick_bitmap := by
              rw [happb, if_neg hb2, if_neg hb1]
            rw [bitAt_congr (applyEvent p e) (update_tick (update_tick p e.lo e.signedAmount false).2 e.hi e.signedAmount true).2 hbm c, hbase c,
              decide_eq_false (fun hx => hb1 (hfl1.mpr hx)),
              decide_eq_false (fun hx => hb2 (hfl2.mpr (hbr.mp hx))),
              Bool.false_and, Bool.false_and, Bool.xor_false, Bool.xor_false]
    · -- the two event ticks are distinct
      obtain ⟨hfl1, hkeys1, hg1, hn1, hother1⟩ := update_tick_exact p e.lo e.signedAmount false
        (grossSpec es e.lo) (netSpec es e.lo) (hmem e.lo)
        (fun hm => (hval e.lo hm).1) (fun hm => (hval e.lo hm).2) (hn0 e.lo)
        ⟨by omega, by omega⟩
        ⟨by
          rcases lt_or_gt_of_ne hs0 with hneg | hpos
          · have hBL := hburnL hneg
            omega
          · omega,
         by
          rcases lt_or_gt_of_ne hs0 with hneg | hpos
          · omega
          · have hMT := hmint_total hpos
            omega⟩
        ⟨by
          show -(2 ^ 127) ≤ netSpec es e.lo + e.signedAmount
          rcases lt_or_gt_of_ne hs0 with hneg | hpos
          · have hBL := hburnL hneg
            omega
          · omega,
         by
          show netSpec es e.lo + e.signedAmount < 2 ^ 127
          rcases lt_or_gt_of_ne hs0 with hneg | hpos
          · omega
          · have hMT := hmint_total hpos
            omega⟩
      have hn1a : (((update_tick p e.lo e.signedAmount false).2.ticks.val e.lo).liquidity_net)
          = netSpec es e.lo + e.signedAmount := hn1
      have hmem1hi : e.hi ∈ (update_tick p e.lo e.signedAmount false).2.ticks.keys ↔ grossSpec es e.hi ≠ 0 := by
        rw [hkeys1, Finset.mem_insert]
        constructor
        · rintro (h | h)
          · exact absurd h (fun hh => hlohi hh.symm)
          · exact (hmem e.hi).mp h
        · intro h
          exact Or.inr ((hmem e.hi).mpr h)
      have hmemdn : ∀ hm : e.hi ∈ (update_tick p e.lo e.signedAmount false).2.ticks.keys, e.hi ∈ p.ticks.keys := by
        intro hm
        rw [hkeys1, Finset.mem_insert] at hm
        rcases hm with h | h
        · exact absurd h (fun hh => hlohi hh.symm)
        · exact h
      obtain ⟨hfl2, hkeys2, hg2, hn2, hother2⟩ := update_tick_exact (update_tick p e.lo e.signedAmount false).2 e.hi e.signedAmount true
        (grossSpec es e.hi) (netSpec es e.hi) hmem1hi
        (fun hm => by
          rw [hother1 e.hi (fun hh => hlohi hh.symm)]
          exact (hval e.hi (hmemdn hm)).1)
        (fun hm => by
          rw [hother1 e.hi (fun hh => hlohi hh.symm)]
          exact (hval e.hi (hmemdn hm)).2)
        (hn0 e.hi)
        ⟨by omega, by omega⟩
        ⟨by
          rcases lt_or_gt_of_ne hs0 with hneg | hpos
          · have hBU := hburnU hneg
            omega
          · omega,
         by
          rcases lt_or_gt_of_ne hs0 with hneg | hpos
          · omega
          · have hMT := hmint_total hpos
            omega⟩
        ⟨by
          show -(2 ^ 127) ≤ netSpec es e.hi - e.signedAmount
          rcases lt_or_gt_of_ne hs0 with hneg | hpos
          · omega
          · have hMT := hmint_total hpos
            omega,
         by
          show netSpec es e.hi - e.signedAmount < 2 ^ 127
          rcases lt_or_gt_of_ne hs0 with hneg | hpos
          · have hBU := hburnU hneg
            omega
          · omega⟩
      have hn2a : (((update_tick (update_tick p e.lo e.signedAmount false).2 e.hi e.signedAmount true).2.ticks.val e.hi).liquidity_net)
          = netSpec es e.hi - e.signedAmount := hn2
      have hval12log : (((update_tick (update_tick p e.lo e.signedAmount false).2 e.hi e.signedAmount true).2.ticks.val e.lo).liquidity_gross : Int)
          = grossSpec es e.lo + e.signedAmount := by
        rw [hother2 e.lo hlohi]
        exact hg1
      have hval12lon : ((update_tick (update_tick p e.lo e.signedAmount false).2 e.hi e.signedAmount true).2.ticks.val e.lo).liquidity_net
          = netSpec es e.lo + e.signedAmount := by
        rw [hother2 e.lo hlohi]
        exact hn1a
      have hvalother : ∀ t, t ≠ e.lo → t ≠ e.hi →
          (update_tick (update_tick p e.lo e.signedAmount false).2 e.hi e.signedAmount true).2.ticks.val t = p.ticks.val t := by
        intro t h1 h2
        rw [hother2 t h2, hother1 t h1]
      have hG2lo : grossSpec (es ++ [e]) e.lo = grossSpec es e.lo + e.signedAmount := by
        rw [grossSpec_append_one, if_pos rfl, if_neg (fun hh => hlohi hh.symm)]
        ring
      have hG2hi : grossSpec (es ++ [e]) e.hi = grossSpec es e.hi + e.signedAmount := by
        rw [grossSpec_append_one, if_neg hlohi, if_pos rfl]
        ring
      have hN2lo : netSpec (es ++ [e]) e.lo = netSpec es e.lo + e.signedAmount := by
        rw [netSpec_append_one, if_pos rfl, if_neg (fun hh => hlohi hh.symm)]
        ring
      have hN2hi : netSpec (es ++ [e]) e.hi = netSpec es e.hi - e.signedAmount := by
        rw [netSpec_append_one, if_neg hlohi, if_pos rfl]
        ring
      have hG2other : ∀ t, t ≠ e.lo → t ≠ e.hi →
          grossSpec (es ++ [e]) t = grossSpec es t := by
        intro t h1 h2
        rw [grossSpec_append_one, if_neg (fun hh => h1 hh.symm),
          if_neg (fun hh => h2 hh.symm)]
        ring
      have hN2other : ∀ t, t ≠ e.lo → t ≠ e.hi →
          netSpec (es ++ [e]) t = netSpec es t := by
        intro t h1 h2
        rw [netSpec_append_one, if_neg (fun hh => h1 hh.symm),
          if_neg (fun hh => h2 hh.symm)]
        ring
      have hGcancel : grossSpec es e.hi + e.signedAmount - e.signedAmount
          = grossSpec es e.hi := by ring
      refine ⟨⟨?_, ?_⟩, ?_⟩
      · intro t
        by_cases htlo : t = e.lo
        · subst htlo
          rw [hmemF, hG2lo]
          have htriv1 : e.lo ∈ Insert.insert e.hi (Insert.insert e.lo p.ticks.keys) :=
            Finset.mem_insert_of_mem (Finset.mem_insert_self _ _)
          have hC : ¬(e.signedAmount < 0 ∧ (update_tick (update_tick p e.lo e.signedAmount false).2 e.hi e.signedAmount true).1 = true ∧ e.lo = e.hi) :=
            fun hh => hlohi hh.2.2
          simp only [iff_true_intro htriv1, iff_true_intro hC, true_and, and_true]
          rw [hfl1]
          unfold Xor'
          rcases lt_or_gt_of_ne hs0 with hneg | hpos
          · have hBL := hburnL hneg
            omega
          · omega
        · by_cases hthi : t = e.hi
          · subst hthi
            rw [hmemF, hG2hi]
            have htriv1 : e.hi ∈ Insert.insert e.hi (Insert.insert e.lo p.ticks.keys) :=
              Finset.mem_insert_self _ _
            have hC : ¬(e.signedAmount < 0 ∧ (update_tick p e.lo e.signedAmount false).1 = true ∧ e.hi = e.lo) :=
              fun hh => hlohi hh.2.2.symm
            simp only [iff_true_intro htriv1, iff_true_intro hC, true_and, and_true]
            rw [hfl2]
            unfold Xor'
            rcases lt_or_gt_of_ne hs0 with hneg | hpos
            · have hBU := hburnU hneg
              omega
            · omega
          · rw [hmemF, hG2other t htlo hthi]
            have h1 : ¬(e.signedAmount < 0 ∧ (update_tick p e.lo e.signedAmount false).1 = true ∧ t = e.lo) :=
              fun hh => htlo hh.2.2
            have h2 : ¬(e.signedAmount < 0 ∧ (update_tick (update_tick p e.lo e.signedAmount false).2 e.hi e.signedAmount true).1 = true ∧ t = e.hi) :=
              fun hh => hthi hh.2.2
            simp only [iff_true_intro h1, iff_true_intro h2, and_true]
            rw [Finset.mem_insert, Finset.mem_insert]
            simp only [htlo, hthi, false_or]
            exact hmem t
      · intro t ht
        rw [hvalF]
        by_cases htlo : t = e.lo
        · subst htlo
          constructor
          · rw [hval12log, hG2lo]
          · rw [hval12lon, hN2lo]
        · by_cases hthi : t = e.hi
          · subst hthi
            constructor
            · rw [hg2, hG2hi]
            · rw [hn2a, hN2hi]
          · have hmem0 : t ∈ p.ticks.keys := by
              have hh := (hmemF t).mp ht
              have hh1 := hh.1
              rw [Finset.mem_insert, Finset.mem_insert] at hh1
              rcases hh1 with h | h | h
              · exact absurd h hthi
              · exact absurd h htlo
              · exact h
            rw [hvalother t htlo hthi]
            constructor
            · rw [hG2other t htlo hthi]
              exact (hval t hmem0).1
            · rw [hN2other t htlo hthi]
              exact (hval t hmem0).2
      · intro c
        have hbr : Xor' (grossSpec (es ++ [e]) e.hi = 0)
              (grossSpec (es ++ [e]) e.hi - e.signedAmount = 0) ↔
            Xor' (grossSpec es e.hi + e.signedAmount = 0) (grossSpec es e.hi = 0) := by
          rw [hG2hi, hGcancel]
        by_cases hb2 : (update_tick (update_tick p e.lo e.signedAmount false).2 e.hi e.signedAmount true).1 = true
        · by_cases hb1 : (update_tick p e.lo e.signedAmount false).1 = true
          · have hbm : (applyEvent p e).tick_bitmap =
                (flip_tick (flip_tick (update_tick (update_tick p e.lo e.signedAmount false).2 e.hi e.signedAmount true).2 e.lo p.tick_spacing) e.hi p.tick_spacing).tick_bitmap := by
              rw [happb, if_pos hb2, if_pos hb1]
            rw [bitAt_congr (applyEvent p e)
                (flip_tick (flip_tick (update_tick (update_tick p e.lo e.signedAmount false).2 e.hi e.signedAmount true).2 e.lo p.tick_spacing) e.hi p.tick_spacing) hbm c,
              flip_tick_bitAt, flip_tick_bitAt, hbase c,
              decide_eq_true (hfl1.mp hb1), decide_eq_true (hbr.mpr (hfl2.mp hb2)),
              Bool.true_and, Bool.true_and]
          · have hbm : (applyEvent p e).tick_bitmap =
                (flip_tick (update_tick (update_tick p e.lo e.signedAmount false).2 e.hi e.signedAmount true).2 e.hi p.tick_spacing).tick_bitmap := by
              rw [happb, if_pos hb2, if_neg hb1]
            rw [bitAt_congr (applyEvent p e)
                (flip_tick (update_tick (update_tick p e.lo e.signedAmount false).2 e.hi e.signedAmount true).2 e.hi p.tick_spacing) hbm c,
              flip_tick_bitAt, hbase c,
              decide_eq_false (fun hx => hb1 (hfl1.mpr hx)),
              decide_eq_true (hbr.mpr (hfl2.mp hb2)),
              Bool.false_and, Bool.true_and, Bool.xor_false]
        · by_cases hb1 : (update_tick p e.lo e.signedAmount false).1 = true
          · have hbm : (applyEvent p e).tick_bitmap =
                (flip_tick (update_tick (update_tick p e.lo e.signedAmount false).2 e.hi e.signedAmount true).2 e.lo p.tick_spacing).tick_bitmap := by
              rw [happb, if_neg hb2, if_pos hb1]
            rw [bitAt_congr (applyEvent p e)
                (flip_tick (update_tick (update_tick p e.lo e.signedAmount false).2 e.hi e.signedAmount true).2 e.lo p.tick_spacing) hbm c,
              flip_tick_bitAt, hbase c,
              decide_eq_true (hfl1.mp hb1),
              decide_eq_false (fun hx => hb2 (hfl2.mpr (hbr.mp hx))),
              Bool.true_and, Bool.false_and, Bool.xor_false]
          · have hbm : (applyEvent p e).tick_bitmap = (update_tick (update_tick p e.lo e.signedAmount false).2 e.hi e.signedAmount true).2.tick_bitmap := by
              rw [happb, if_neg hb2, if_neg hb1]
            rw [bitAt_congr (applyEvent p e) (update_tick (update_tick p e.lo e.signedAmount false).2 e.hi e.signedAmount true).2 hbm c, hbase c,
              decide_eq_false (fun hx => hb1 (hfl1.mpr hx)),
              decide_eq_false (fun hx => hb2 (hfl2.mpr (hbr.mp hx))),
              Bool.false_and, Bool.false_and, Bool.xor_false, Bool.xor_false]



/-! ### Replay master induction: ticks map and bitmap -/

theorem ws16_eq_self (n : Int) (h₀ : -(2 ^ 15) ≤ n) (h₁ : n < 2 ^ 15) :
    ws16 n = n := by
  unfold ws16
  omega

theorem emptyPool_bit (spacing : Int) (c : Int) :
    bitAtCompressed (emptyPool spacing) c = false := by
  unfold bitAtCompressed HMap.getD emptyPool
  simp [Nat.zero_testBit]

theorem decide_xor_decide (P Q : Prop) [Decidable P] [Decidable Q] :
    ((decide P).xor (decide Q)) = decide (Xor' P Q) := by
  by_cases hp : P <;> by_cases hq : Q <;> simp [hp, hq, Xor']

/-- `position` is injective on the compressed ticks that can arise from
legal pool ticks: there the word index fits an `i16` without wrapping. -/
theorem position_inj (a b : Int)
    (ha₀ : -887272 ≤ a) (ha₁ : a ≤ 887272)
    (hb₀ : -887272 ≤ b) (hb₁ : b ≤ 887272) :
    position a = position b ↔ a = b := by
  constructor
  · intro h
    unfold position at h
    rw [Prod.mk.injEq] at h
    obtain ⟨h1, h2⟩ := h
    have hfa : a.fdiv 256 = a / 256 := Int.fdiv_eq_ediv a (by norm_num)
    have hfb : b.fdiv 256 = b / 256 := Int.fdiv_eq_ediv b (by norm_num)
    rw [hfa, hfb, ws16_eq_self (a / 256) (by omega) (by omega),
      ws16_eq_self (b / 256) (by omega) (by omega)] at h1
    have ha' : 0 ≤ a.emod 256 := Int.emod_nonneg a (by norm_num)
    have hb' : 0 ≤ b.emod 256 := Int.emod_nonneg b (by norm_num)
    have hea : a.emod 256 = a % 256 := rfl
    have heb : b.emod 256 = b % 256 := rfl
    rw [hea] at h2 ha'
    rw [heb] at h2 hb'
    omega
  · intro h
    rw [h]

theorem tdiv_exact (t sp : Int) (hsp : sp ≠ 0) (hd : sp ∣ t) :
    t.tdiv sp * sp = t := by
  obtain ⟨k, rfl⟩ := hd
  rw [mul_comm sp k, Int.mul_tdiv_cancel _ hsp]

theorem compressed_bound (t sp : Int) (hsp : 0 < sp) (hd : sp ∣ t)
    (h₀ : -887272 ≤ t) (h₁ : t ≤ 887272) :
    -887272 ≤ t.tdiv sp ∧ t.tdiv sp ≤ 887272 := by
  obtain ⟨k, hk⟩ := hd
  have hct : t.tdiv sp = k := by
    rw [hk, Int.mul_tdiv_cancel_left _ (by omega)]
  rcases le_or_lt 0 k with hk0 | hk0
  · have hkk : k ≤ sp * k := le_mul_of_one_le_left hk0 (by omega)
    constructor
    · rw [hct]
      linarith
    · rw [hct]
      have h2 : sp * k ≤ 887272 := by
        rw [← hk]
        exact h₁
      linarith
  · have hkk : sp * k ≤ k := by
      have h3 := mul_le_mul_of_nonpos_right (show (1 : Int) ≤ sp by omega)
        (le_of_lt hk0)
      simpa using h3
    constructor
    · rw [hct]
      have h2 : -887272 ≤ sp * k := by
        rw [← hk]
        exact h₀
      linarith
    · rw [hct]
      linarith

@[simp]
theorem applyEvent_tick_spacing (p : UniswapV3Pool) (e : Event) :
    (applyEvent p e).tick_spacing = p.tick_spacing := by
  unfold applyEvent
  rw [modify_position_tick_spacing]

theorem runEvents_tick_spacing (p : UniswapV3Pool) (es : List Event) :
    (runEvents p es).tick_spacing = p.tick_spacing := by
  induction es generalizing p with
  | nil => rfl
  | cons e rest ih =>
    show (runEvents (applyEvent p e) rest).tick_spacing = p.tick_spacing
    rw [ih (applyEvent p e), applyEvent_tick_spacing]

theorem grossSpec_nil (t : Int) : grossSpec [] t = 0 := by
  simp [grossSpec, lowerAcc, upperAcc]

theorem runEvents_append_one (p : UniswapV3Pool) (es : List Event) (e : Event) :
    runEvents p (es ++ [e]) = applyEvent (runEvents p es) e := by
  unfold runEvents
  rw [List.foldl_append]
  rfl

/-- Master induction for the ticks map: replaying any valid, bounded event
sequence from an empty ticks map establishes the ghost invariant. -/
theorem ticksInv_runEvents (p0 : UniswapV3Pool) (h0t : p0.ticks.keys = ∅) :
    ∀ es : List Event, Valid es → (totalMinted es : Int) < 2 ^ 127 →
      TicksInv es (runEvents p0 es) := by
  intro es
  induction es using List.reverseRecOn with
  | nil =>
    intro _ _
    constructor
    · intro t
      show t ∈ p0.ticks.keys ↔ grossSpec [] t ≠ 0
      rw [h0t, grossSpec_nil]
      simp
    · intro t ht
      rw [show runEvents p0 [] = p0 from rfl, h0t] at ht
      exact absurd ht (Finset.not_mem_empty t)
  | append_singleton es e ih =>
    intro hv hb
    obtain ⟨hves, hstep⟩ := (valid_append_iff es e).mp hv
    have hb' : (totalMinted es : Int) < 2 ^ 127 := by
      rw [totalMinted_append] at hb
      push_cast at hb
      omega
    rw [runEvents_append_one]
    exact (replay_step_ticks es e (runEvents p0 es) (ih hves hb') hves hstep hb).1

/-- Master induction for the bitmap: replaying any valid, bounded event
sequence whose ticks are spacing-multiples in the legal range, from a pool
with empty ticks map and all-clear bitmap, keeps the bitmap in sync with
the ticks map on legal ticks. -/
theorem bitSync_runEvents (p0 : UniswapV3Pool) (h0t : p0.ticks.keys = ∅)
    (h0b : ∀ c : Int, bitAtCompressed p0 c = false) (hsp : 0 < p0.tick_spacing) :
    ∀ es : List Event, Valid es → (totalMinted es : Int) < 2 ^ 127 →
      SpacedEvents p0.tick_spacing es → BitSync (runEvents p0 es) := by
  intro es
  induction es using List.reverseRecOn with
  | nil =>
    intro _ _ _ t _ _ _
    show tickBit p0 t = decide (t ∈ p0.ticks.keys)
    unfold tickBit
    rw [h0b, h0t]
    simp
  | append_singleton es e ih =>
    intro hv hb hse
    obtain ⟨hves, hstep⟩ := (valid_append_iff es e).mp hv
    have hb' : (totalMinted es : Int) < 2 ^ 127 := by
      rw [totalMinted_append] at hb
      push_cast at hb
      omega
    have hse' : SpacedEvents p0.tick_spacing es :=
      fun e' he' => hse e' (List.mem_append_left _ he')
    obtain ⟨hdlo, hdhi, hlo1, hlo2, hhi1, hhi2⟩ :=
      hse e (List.mem_append_right _ (List.mem_singleton_self e))
    have hlo1' : (-887272 : Int) ≤ e.lo := hlo1
    have hlo2' : e.lo ≤ (887272 : Int) := hlo2
    have hhi1' : (-887272 : Int) ≤ e.hi := hhi1
    have hhi2' : e.hi ≤ (887272 : Int) := hhi2
    have hinv := ticksInv_runEvents p0 h0t es hves hb'
    have hbits := ih hves hb' hse'
    obtain ⟨hinv', hbit⟩ := replay_step_ticks es e (runEvents p0 es) hinv hves hstep hb
    rw [runEvents_append_one]
    have hspP : (runEvents p0 es).tick_spacing = p0.tick_spacing :=
      runEvents_tick_spacing p0 es
    rw [hspP] at hbit
    intro t hdvd ht1 ht2
    have ht1' : (-887272 : Int) ≤ t := ht1
    have ht2' : t ≤ (887272 : Int) := ht2
    have hspA : (applyEvent (runEvents p0 es) e).tick_spacing = p0.tick_spacing := by
      rw [applyEvent_tick_spacing, hspP]
    rw [hspA] at hdvd
    unfold tickBit
    rw [hspA, hbit (t.tdiv p0.tick_spacing)]
    have hPdvd : (runEvents p0 es).tick_spacing ∣ t := by
      rw [hspP]
      exact hdvd
    have hPbit := hbits t hPdvd ht1 ht2
    unfold tickBit at hPbit
    rw [hspP] at hPbit
    rw [hPbit]
    have hbt := compressed_bound t p0.tick_spacing hsp hdvd ht1' ht2'
    have hblo := compressed_bound e.lo p0.tick_spacing hsp hdlo hlo1' hlo2'
    have hbhi := compressed_bound e.hi p0.tick_spacing hsp hdhi hhi1' hhi2'
    have hexT := tdiv_exact t p0.tick_spacing (by omega) hdvd
    have hexL := tdiv_exact e.lo p0.tick_spacing (by omega) hdlo
    have hexH := tdiv_exact e.hi p0.tick_spacing (by omega) hdhi
    have hple : position (e.lo.tdiv p0.tick_spacing)
        = position (t.tdiv p0.tick_spacing) ↔ e.lo = t := by
      rw [position_inj _ _ hblo.1 hblo.2 hbt.1 hbt.2]
      constructor
      · intro h
        rw [← hexL, ← hexT, h]
      · intro h
        have hmul : e.lo.tdiv p0.tick_spacing * p0.tick_spacing
            = t.tdiv p0.tick_spacing * p0.tick_spacing := by
          rw [hexL, hexT, h]
        exact mul_right_cancel₀ (by omega) hmul
    have hphi : position (e.hi.tdiv p0.tick_spacing)
        = position (t.tdiv p0.tick_spacing) ↔ e.hi = t := by
      rw [position_inj _ _ hbhi.1 hbhi.2 hbt.1 hbt.2]
      constructor
      · intro h
        rw [← hexH, ← hexT, h]
      · intro h
        have hmul : e.hi.tdiv p0.tick_spacing * p0.tick_spacing
            = t.tdiv p0.tick_spacing * p0.tick_spacing := by
          rw [hexH, hexT, h]
        exact mul_right_cancel₀ (by omega) hmul
    have hdm1 : decide (t ∈ (runEvents p0 es).ticks.keys)
        = decide (grossSpec es t ≠ 0) := decide_eq_decide.mpr (hinv.1 t)
    have hdm2 : decide (t ∈ (applyEvent (runEvents p0 es) e).ticks.keys)
        = decide (grossSpec (es ++ [e]) t ≠ 0) := decide_eq_decide.mpr (hinv'.1 t)
    rw [decide_eq_decide.mpr hple, decide_eq_decide.mpr hphi, hdm1, hdm2]
    by_cases hlt : e.lo = t
    · by_cases hht : e.hi = t
      · rw [decide_eq_true hlt, decide_eq_true hht, Bool.and_true, Bool.and_true,
          decide_xor_decide, decide_xor_decide, decide_eq_decide]
        have e1 := grossSpec_append_one es e t
        rw [if_pos hlt, if_pos hht] at e1
        rw [hlt, hht, e1]
        unfold Xor'
        omega
      · rw [decide_eq_true hlt, Bool.and_true, decide_eq_false hht, Bool.and_false,
          Bool.xor_false, decide_xor_decide, decide_eq_decide]
        have e1 := grossSpec_append_one es e t
        rw [if_pos hlt, if_neg hht] at e1
        rw [hlt, e1]
        unfold Xor'
        omega
    · by_cases hht : e.hi = t
      · rw [decide_eq_false hlt, Bool.and_false, Bool.xor_false, decide_eq_true hht,
          Bool.and_true, decide_xor_decide, decide_eq_decide]
        have e1 := grossSpec_append_one es e t
        rw [if_neg hlt, if_pos hht] at e1
        rw [hht, e1]
        unfold Xor'
        omega
      · rw [decide_eq_false hlt, Bool.and_false, Bool.xor_false, decide_eq_false hht,
          Bool.and_false, Bool.xor_false, decide_eq_decide]
        have e1 := grossSpec_append_one es e t
        rw [if_neg hlt, if_neg hht] at e1
        rw [e1]
        omega

/-! ### Claims C3 and C4 -/

/-- C3 (counterexample): the claim as stated quantifies over all event
sequences.  From an empty pool, mint(0,1,5), mint(2,3,5), burn(0,2,5) —
whose burn hits a position that was never minted — leaves the ticks map
with `liquidity_net` entries summing to −10, not 0. -/
theorem claim_C3_counterexample :
    (emptyPool 1).ticks.keys = ∅ ∧ (emptyPool 1).tick_bitmap.keys = ∅ ∧
    tickNetSum (runEvents (emptyPool 1) cexEvents3) = -10 := by
  refine ⟨rfl, rfl, ?_⟩
  decide

/-- C3 (amended): for every valid sequence of mint/burn events (each burn
covered by the liquidity previously minted on the same position) whose
total minted amount stays below `2^127`, applied from a pool with an empty
ticks map, the sum of `liquidity_net` over the entries of the ticks map is
zero after every step of the sequence. -/
theorem claim_C3_amended_net_sum (p0 : UniswapV3Pool) (es : List Event) (i : Nat)
    (h0 : p0.ticks.keys = ∅) (hv : Valid es)
    (hb : (totalMinted es : Int) < 2 ^ 127) :
    tickNetSum (runEvents p0 (es.take i)) = 0 :=
  tickNetSum_eq_zero_of_inv (es.take i) _ (valid_take es hv i)
    (ticksInv_runEvents p0 h0 (es.take i) (valid_take es hv i)
      (lt_of_le_of_lt (by exact_mod_cast totalMinted_take_le es i) hb))

/-- Witness: the amended C3 theorem applied to a concrete valid two-event
sequence at step 2. -/
theorem claim_C3_amended_witness :
    (emptyPool 1).ticks.keys = ∅ ∧ Valid validEvents3 ∧
    (totalMinted validEvents3 : Int) < 2 ^ 127 ∧
    tickNetSum (runEvents (emptyPool 1) (validEvents3.take 2)) = 0 :=
  ⟨rfl, by decide, by decide,
    claim_C3_amended_net_sum (emptyPool 1) validEvents3 2 rfl (by decide) (by decide)⟩

/-- C4 (counterexample): with spacing 10, minting position (1, 2) puts
ticks 1 and 2 into the ticks map, but both compress (by truncating
division) to bitmap bit `position 0`, so the two flips cancel: tick 1 is
present in the map while its bit is clear, refuting the claimed equality
of the two sets. -/
theorem claim_C4_counterexample :
    (emptyPool 10).ticks.keys = ∅ ∧ (emptyPool 10).tick_bitmap.keys = ∅ ∧
    (1 : Int) ∈ (runEvents (emptyPool 10) cexEvents4).ticks.keys ∧
    tickBit (runEvents (emptyPool 10) cexEvents4) 1 = false := by
  refine ⟨rfl, rfl, ?_, ?_⟩ <;> decide

/-- C4 (amended): for pools with positive spacing, replaying any valid,
bounded event sequence whose ticks are multiples of the spacing inside
`[MIN_TICK, MAX_TICK]` from an empty ticks map and an all-clear bitmap
keeps the two sets equal on legal ticks: a tick `t` that is a multiple of
the spacing in the legal range has its bit `position (t / tick_spacing)`
set iff `t` is present in the ticks map. -/
theorem claim_C4_amended_bitmap (p0 : UniswapV3Pool) (es : List Event) (t : Int)
    (h0t : p0.ticks.keys = ∅) (h0b : ∀ c : Int, bitAtCompressed p0 c = false)
    (hsp : 0 < p0.tick_spacing) (hv : Valid es)
    (hb : (totalMinted es : Int) < 2 ^ 127)
    (hse : SpacedEvents p0.tick_spacing es)
    (hdvd : p0.tick_spacing ∣ t) (h1 : MIN_TICK ≤ t) (h2 : t ≤ MAX_TICK) :
    tickBit (runEvents p0 es) t = decide (t ∈ (runEvents p0 es).ticks.keys) :=
  bitSync_runEvents p0 h0t h0b hsp es hv hb hse t
    (by rw [runEvents_tick_spacing]; exact hdvd) h1 h2

/-- Witness: the amended C4 theorem applied to a concrete spaced sequence,
read at tick 30 (present, bit set). -/
theorem claim_C4_amended_witness :
    Valid validEvents4 ∧ (totalMinted validEvents4 : Int) < 2 ^ 127 ∧
    SpacedEvents (emptyPool 10).tick_spacing validEvents4 ∧
    (0 : Int) < (emptyPool 10).tick_spacing ∧
    tickBit (runEvents (emptyPool 10) validEvents4) 30 =
      decide ((30 : Int) ∈ (runEvents (emptyPool 10) validEvents4).ticks.keys) := by
  have hSE : SpacedEvents (emptyPool 10).tick_spacing validEvents4 := by
    intro e' he'
    rw [show validEvents4 = [Event.mint (-20) 30 7] from rfl,
      List.mem_singleton] at he'
    subst he'
    exact ⟨⟨-2, by decide⟩, ⟨3, by decide⟩, by decide, by decide, by decide, by decide⟩
  exact ⟨by decide, by decide, hSE, by decide,
    claim_C4_amended_bitmap (emptyPool 10) validEvents4 30 rfl (emptyPool_bit 10)
      (by decide) (by decide) (by decide) hSE ⟨3, by decide⟩ (by decide) (by decide)⟩

end AmmsRs
